import Mathlib

/-!
# dev-tool, `web/static/js/main.js`: a verification development

Shallow embedding of the browser-side helpers of `main.js` and theorems about
them.  JavaScript values, the DOM, the clock and the timer queue are explicit
data; every helper is a total, executable function on that data.  What the
host provides (`parseFloat`, `localeCompare`, the parser and the serialiser
behind `innerHTML`) is a parameter of the helper that uses it; the models of
these given here serve the worked examples.
-/

namespace DevTool

/-! ## JavaScript values met by `formatBuildStatus` -/

/-- The JavaScript values that `statusMap[status] || ...` can evaluate to. -/
inductive JSValue where
  /-- The value `undefined`. -/
  | undefined
  /-- An object literal with the two string fields `text` and `css`. -/
  | statusInfo (text css : String)
  /-- A function or object inherited from `Object.prototype`, named by its key. -/
  | inherited (key : String)
deriving DecidableEq, Repr

/-- ToBoolean of a value: `undefined` is falsy, objects and functions are truthy. -/
def JSValue.truthy : JSValue → Bool
  | .undefined => false
  | .statusInfo _ _ => true
  | .inherited _ => true

/-- Property read `v.text`, with `none` for `undefined`: only the object
literals carry a `text` field; the members of `Object.prototype` (functions, and
the prototype object itself) have none. -/
def JSValue.getText : JSValue → Option String
  | .statusInfo text _ => some text
  | _ => none

/-- Property read `v.css`, with `none` for `undefined`. -/
def JSValue.getCss : JSValue → Option String
  | .statusInfo _ css => some css
  | _ => none

/-- ToString as a template literal performs it on a string or `undefined`. -/
def interpolate : Option String → String
  | none => "undefined"
  | some s => s

/-- The own properties of the object literal `statusMap` (lines 46-55), in source order. -/
def statusMap : List (String × String × String) :=
  [ ("UPLOAD_OK", "成功", "success"),
    ("SUCCESS", "成功", "success"),
    ("OK", "成功", "success"),
    ("UPLOAD_GIVEUP", "失败", "failure"),
    ("APPLY_FAILED", "失败", "failure"),
    ("APPLYING", "进行中", "pending"),
    ("UPLOADING", "上传中", "pending"),
    ("UNKNOWN", "未知", "unknown") ]

/-- The property names every plain object inherits from `Object.prototype`
(ECMAScript, Annex B included).  All of them hold a function, except
`__proto__`, whose getter returns the prototype object; all are truthy. -/
def objectPrototypeKeys : List String :=
  [ "constructor", "hasOwnProperty", "isPrototypeOf", "propertyIsEnumerable",
    "toLocaleString", "toString", "valueOf", "__proto__",
    "__defineGetter__", "__defineSetter__", "__lookupGetter__", "__lookupSetter__" ]

/-- Property read `statusMap[status]`: own properties first, then the prototype chain. -/
def statusMapGet (status : String) : JSValue :=
  match statusMap.lookup status with
  | some (text, css) => .statusInfo text css
  | none => if status ∈ objectPrototypeKeys then .inherited status else .undefined

/-- The constant `statusInfo` of line 57: `statusMap[status] || { text: status, css: 'unknown' }`. -/
def statusInfoOf (status : String) : JSValue :=
  if (statusMapGet status).truthy then statusMapGet status
  else .statusInfo status "unknown"

/-- The style interpolated into the `class` attribute, `${statusInfo.css}`. -/
def statusStyle (status : String) : String :=
  interpolate (statusInfoOf status).getCss

/-- The label interpolated into the element body, `${statusInfo.text}`. -/
def statusLabel (status : String) : String :=
  interpolate (statusInfoOf status).getText

/-- `formatBuildStatus(status)` (lines 45-59). -/
def formatBuildStatus (status : String) : String :=
  "<span class=\"build-status " ++ statusStyle status ++ "\">" ++ statusLabel status ++ "</span>"

/-- The eight keys written in the `statusMap` literal. -/
def definedCodes : List String := statusMap.map Prod.fst

/-! ## `apiRequest` (lines 62-82) -/

/-- What a promise of `apiRequest` can be rejected with: the `Error` object
built on line 74, or whatever `fetch` or `response.json()` rejected with. -/
inductive Rejection (ε : Type) where
  | error (message : String)
  | raised (e : ε)
deriving DecidableEq, Repr

/-- A `Response`: the fields read by `apiRequest` and the outcome that
`response.json()` has when it is called. -/
structure Response (ε β : Type) where
  ok : Bool
  status : Nat
  json : Except ε β

/-- A request configuration: property names with their values, in insertion order. -/
abbrev RequestOptions (υ : Type) := List (String × υ)

/-- Values of a request configuration: a string (method, body, ...) or an
object of string fields (headers). -/
inductive OptionValue where
  | text (s : String)
  | object (fields : List (String × String))
deriving DecidableEq, Repr

/-- The literal `defaultOptions` of lines 63-67. -/
def defaultOptions : RequestOptions OptionValue :=
  [("headers", .object [("Content-Type", "application/json")])]

/-- Assignment of one property, as object spread does it: an existing key keeps
its place and takes the new value, a new key goes last. -/
def setProperty {υ : Type} (o : RequestOptions υ) (k : String) (v : υ) : RequestOptions υ :=
  if o.any (fun kv => kv.1 == k) then o.map (fun kv => if kv.1 == k then (k, v) else kv)
  else o ++ [(k, v)]

/-- The object spread `{ ...a, ...b }` (line 69), a shallow merge. -/
def spread {υ : Type} (a b : RequestOptions υ) : RequestOptions υ :=
  b.foldl (fun o kv => setProperty o kv.1 kv.2) (a.foldl (fun o kv => setProperty o kv.1 kv.2) [])

/-- Observable steps of one `apiRequest` call. -/
inductive ApiEvent (ε υ : Type) where
  | fetchCalled (url : String) (options : RequestOptions υ)
  | jsonCalled
  | consoleError (label : String) (reason : Rejection ε)

/-- The handler given to `.then` (lines 72-77), with the steps it performs. -/
def onResponse {ε β υ : Type} (response : Response ε β) :
    Except (Rejection ε) β × List (ApiEvent ε υ) :=
  if !response.ok then
    (.error (.error ("HTTP error! status: " ++ toString response.status)), [])
  else
    match response.json with
    | .ok body => (.ok body, [.jsonCalled])
    | .error e => (.error (.raised e), [.jsonCalled])

/-- The handler given to `.catch` (lines 78-81): log, then rethrow. -/
def onRejected {ε β υ : Type} (error : Rejection ε) :
    Except (Rejection ε) β × List (ApiEvent ε υ) :=
  (.error error, [.consoleError "API request failed:" error])

/-- `apiRequest(url, options)`: how the returned promise settles, and the steps
taken.  `fetch` gives the settlement of the promise `fetch(url, finalOptions)`;
an omitted `options` is the empty object `[]`. -/
def apiRequest {ε β : Type}
    (fetch : String → RequestOptions OptionValue → Except ε (Response ε β))
    (url : String) (options : RequestOptions OptionValue) :
    Except (Rejection ε) β × List (ApiEvent ε OptionValue) :=
  let finalOptions := spread defaultOptions options
  let fetched : Except (Rejection ε) (Response ε β) :=
    match fetch url finalOptions with
    | .ok response => .ok response
    | .error e => .error (.raised e)
  let afterThen : Except (Rejection ε) β × List (ApiEvent ε OptionValue) :=
    match fetched with
    | .ok response => onResponse response
    | .error e => (.error e, [])
  let afterCatch : Except (Rejection ε) β × List (ApiEvent ε OptionValue) :=
    match afterThen.1 with
    | .ok body => (.ok body, [])
    | .error e => onRejected e
  (afterCatch.1, [.fetchCalled url finalOptions] ++ afterThen.2 ++ afterCatch.2)

/-- One step of reading a decimal numeral: the value so far and the next digit. -/
def decimalStep (acc : Nat) (c : Char) : Nat := acc * 10 + (c.toNat - 48)

/-- The number a decimal numeral stands for. -/
def decimalValue (cs : List Char) : Nat := cs.foldl decimalStep 0

/-! ## The clock and the timer queue -/

/-- A timer set by `setTimeout` and not yet run or cleared.  `callback` is the
data of the closure that was passed. -/
structure PendingTimer (κ : Type) where
  id : Nat
  due : Nat
  callback : κ
deriving DecidableEq, Repr

/-- The event loop around a script state `σ`: the clock in milliseconds (read by
`Date.now()` and by the timers), the next timer id and the pending timers in
the order they were set. -/
structure Loop (κ σ : Type) where
  now : Nat
  nextTimerId : Nat
  timers : List (PendingTimer κ)
  state : σ
deriving DecidableEq, Repr

/-- `setTimeout(callback, wait)`: the new timer id and the loop with the timer pending. -/
def setTimeout {κ σ : Type} (callback : κ) (wait : Nat) (l : Loop κ σ) : Nat × Loop κ σ :=
  (l.nextTimerId,
   { l with nextTimerId := l.nextTimerId + 1,
            timers := l.timers ++ [⟨l.nextTimerId, l.now + wait, callback⟩] })

/-- `clearTimeout(handle)`; `none` is `undefined`, which clears nothing. -/
def clearTimeout {κ σ : Type} (handle : Option Nat) (l : Loop κ σ) : Loop κ σ :=
  match handle with
  | none => l
  | some id => { l with timers := l.timers.filter (fun t => t.id != id) }

/-- Take the pending timer that runs next out of the queue: the least due time,
the one set first among equals.  The result is that timer and the others. -/
def popEarliest {κ : Type} :
    List (PendingTimer κ) → Option (PendingTimer κ × List (PendingTimer κ))
  | [] => none
  | t :: ts =>
    match popEarliest ts with
    | none => some (t, ts)
    | some (u, rest) => if u.due < t.due then some (u, t :: rest) else some (t, ts)

/-- Run, in order, the timers due at or before `upTo`, at most `fuel` of them.
A timer that runs leaves the queue, the clock reads its due time (or stays
where it is when that is later), and `fire` executes its callback. -/
def runTimers {κ σ : Type} (fire : κ → Loop κ σ → Loop κ σ) (upTo : Nat) :
    Nat → Loop κ σ → Loop κ σ
  | 0, l => l
  | fuel + 1, l =>
    match popEarliest l.timers with
    | none => l
    | some (t, rest) =>
      if t.due ≤ upTo then
        runTimers fire upTo fuel
          (fire t.callback { l with now := max l.now t.due, timers := rest })
      else l

/-- Let the clock reach `upTo`: every timer due by then runs (the callbacks of
this file set no timer, so one unit of fuel per pending timer is enough), then
the clock reads `upTo`. -/
def advanceTo {κ σ : Type} (fire : κ → Loop κ σ → Loop κ σ) (upTo : Nat) (l : Loop κ σ) :
    Loop κ σ :=
  let l1 := runTimers fire upTo l.timers.length l
  { l1 with now := max l1.now upTo }

/-! ## `debounce` (lines 85-95) -/

/-- The state `debounce(func, wait)` closes over: the variable `timeout`
(`none` while `undefined`) and, as the observable effect of `func`, the record
of its executions with the clock reading and the arguments of each. -/
structure Debounced (α : Type) where
  timeout : Option Nat
  executions : List (Nat × α)
deriving DecidableEq, Repr

/-- The closure `later` (lines 88-91) of a call made with `args`. -/
def later {α : Type} (args : α) (l : Loop α (Debounced α)) : Loop α (Debounced α) :=
  let l1 := clearTimeout l.state.timeout l
  { l1 with state := { l1.state with executions := l1.state.executions ++ [(l1.now, args)] } }

/-- The returned function `executedFunction(...args)` (lines 87-94). -/
def executedFunction {α : Type} (wait : Nat) (args : α) (l : Loop α (Debounced α)) :
    Loop α (Debounced α) :=
  let l1 := clearTimeout l.state.timeout l
  let (id, l2) := setTimeout args wait l1
  { l2 with state := { l2.state with timeout := some id } }

/-- The loop right after `debounce(func, wait)` returned, at clock reading `start`. -/
def debounce {α : Type} (start : Nat) : Loop α (Debounced α) :=
  { now := start, nextTimerId := 1, timers := [], state := { timeout := none, executions := [] } }

/-- One call of the debounced function at time `call.1` with arguments `call.2`:
the clock first reaches that time. -/
def callAt {α : Type} (wait : Nat) (l : Loop α (Debounced α)) (call : Nat × α) :
    Loop α (Debounced α) :=
  executedFunction wait call.2 (advanceTo later call.1 l)

/-- A sequence of calls, then the clock reaches `upTo`; the result is the
record of the executions of `func`. -/
def debounceTrace {α : Type} (wait : Nat) (calls : List (Nat × α)) (upTo : Nat) :
    List (Nat × α) :=
  (advanceTo later upTo (calls.foldl (callAt wait) (debounce 0))).state.executions

/-- The state between two calls that follow each other by less than `wait`:
one pending timer, the one `timeout` holds, due `wait` after the call made at
`t` with `args`, and `func` has not run. -/
def Armed {α : Type} (wait : Nat) (t : Nat) (args : α) (l : Loop α (Debounced α)) : Prop :=
  ∃ i, l.timers = [⟨i, t + wait, args⟩] ∧ l.state.timeout = some i ∧ l.now = t ∧
    l.state.executions = []

/-! ## `showAlert` (lines 4-23) and the page -/

/-- A notification node in the container: `key` is the identity of the DOM
node, the other fields are what line 8-9 interpolate into the markup. -/
structure AlertNode where
  key : Nat
  id : String
  type : String
  message : String
deriving DecidableEq, Repr

/-- A child node of `document.body`. -/
structure BodyNode where
  key : Nat
  tagName : String
  value : String
deriving DecidableEq, Repr

/-- The document: the children of the element `alertContainer`, the children of
`document.body`, and the identity the next created node gets. -/
structure Page where
  nextKey : Nat
  alertContainer : List AlertNode
  body : List BodyNode
deriving DecidableEq, Repr

/-- The page with its clock and timers.  A timer callback is the closure of
lines 16-22; its data is the `alertId` it captured. -/
abbrev PageLoop := Loop String Page

/-- The constant `alertId` of line 6, `'alert-' + Date.now()`. -/
def alertId (now : Nat) : String := "alert-" ++ toString now

/-- The timer callback of lines 16-22: `document.getElementById(alertId)` finds
the first node with that id, and `close()` removes the node it is given. -/
def autoClose (id : String) (l : PageLoop) : PageLoop :=
  match l.state.alertContainer.find? (fun n => n.id == id) with
  | some alert =>
    { l with state := { l.state with alertContainer := l.state.alertContainer.erase alert } }
  | none => l

/-- `showAlert(message, type)`; `type = none` is an omitted argument. -/
def showAlert (message : String) (type : Option String) (l : PageLoop) : PageLoop :=
  let type := type.getD "info"
  let id := alertId l.now
  let node : AlertNode := { key := l.state.nextKey, id := id, type := type, message := message }
  let l1 : PageLoop :=
    { l with state := { l.state with nextKey := l.state.nextKey + 1,
                                     alertContainer := l.state.alertContainer ++ [node] } }
  (setTimeout id 5000 l1).2

/-- The user closes the notification whose node has identity `key`. -/
def dismiss (key : Nat) (l : PageLoop) : PageLoop :=
  { l with state := { l.state with
      alertContainer := l.state.alertContainer.filter (fun n => n.key != key) } }

/-- What happens on the page: a call of `showAlert`, a manual dismissal, or the
clock reaching a later time. -/
inductive PageEvent where
  | alert (message : String) (type : Option String)
  | dismiss (key : Nat)
  | tick (upTo : Nat)
deriving DecidableEq, Repr

/-- One event applied to the page. -/
def PageEvent.apply (l : PageLoop) : PageEvent → PageLoop
  | .alert message type => showAlert message type l
  | .dismiss key => DevTool.dismiss key l
  | .tick upTo => advanceTo autoClose upTo l

/-- The freshly loaded page at clock reading `start`: no notification, no timer. -/
def initialPage (start : Nat) : PageLoop :=
  { now := start, nextTimerId := 1, timers := [],
    state := { nextKey := 0, alertContainer := [], body := [] } }

/-- The events of a list, applied in order from the freshly loaded page. -/
def runPage (start : Nat) (events : List PageEvent) : PageLoop :=
  events.foldl PageEvent.apply (initialPage start)

/-- The invariant of the page: every pending timer was set by a `showAlert` at
some clock reading `t`, holds the id made from `t` and is due at `t + 5000`;
and for every id there are at least as many pending timers holding it as there
are nodes in the container carrying it. -/
def Covered (l : PageLoop) : Prop :=
  (∀ tm ∈ l.timers, ∃ t, tm.callback = alertId t ∧ tm.due = t + 5000) ∧
  (∀ id : String, l.state.alertContainer.countP (fun n => n.id == id) ≤
    l.timers.countP (fun tm => tm.callback == id))

/-! ## `copyToClipboard` (lines 122-147) -/

/-- How `document.execCommand('copy')` ends: it returns a boolean or throws. -/
inductive CopyCommand (ε : Type) where
  | returns (result : Bool)
  | throws (e : ε)
deriving DecidableEq, Repr

/-- What `copyToClipboard` hands to its caller: a promise with its settlement
(first branch), or `undefined` (second branch, which has no `return`). -/
inductive Returned (ε : Type) where
  | promise (settled : Except ε Unit)
  | undefined

/-- `copyToClipboard(text)`.  `clipboard` says whether `navigator.clipboard` is
there, `secure` is `window.isSecureContext`, `writeText` is the settlement of
`navigator.clipboard.writeText(text)` and `command` the end of
`document.execCommand('copy')`. -/
def copyToClipboard {ε : Type} (clipboard secure : Bool) (writeText : String → Except ε Unit)
    (command : CopyCommand ε) (text : String) (l : PageLoop) : Returned ε × PageLoop :=
  if clipboard && secure then
    match writeText text with
    | .ok _ => (.promise (.ok ()), showAlert "已复制到剪贴板" (some "success") l)
    | .error e => (.promise (.error e), l)
  else
    let textArea : BodyNode := { key := l.state.nextKey, tagName := "textarea", value := text }
    let l1 : PageLoop :=
      { l with state := { l.state with nextKey := l.state.nextKey + 1,
                                       body := l.state.body ++ [textArea] } }
    let l2 : PageLoop :=
      match command with
      | .returns _ => showAlert "已复制到剪贴板" (some "success") l1
      | .throws _ => showAlert "复制失败" (some "error") l1
    let l3 : PageLoop :=
      { l2 with state := { l2.state with
          body := l2.state.body.filter (fun n => n.key != textArea.key) } }
    (.undefined, l3)

/-! ## Numbers and strings of the host, as `sortTable` uses them -/

/-- A Number value: `NaN`, the two infinities, or the finite value
`mantissa * 2 ^ exponent`. -/
inductive JSNumber where
  | nan
  | negInf
  | posInf
  | finite (mantissa : Int) (exponent : Int)
deriving DecidableEq, Repr

/-- The global `isNaN` on a Number. -/
def JSNumber.isNaN : JSNumber → Bool
  | .nan => true
  | _ => false

/-- The rational a finite Number stands for (0 for the others). -/
def JSNumber.value : JSNumber → ℚ
  | .finite m e => (m : ℚ) * (2 : ℚ) ^ e
  | _ => 0

/-- Numeric subtraction `a - b`.  For two finite operands the result is the
exact difference; the host rounds it to a double, which keeps its sign, and a
comparator result is only read for its sign. -/
def JSNumber.sub : JSNumber → JSNumber → JSNumber
  | .nan, _ => .nan
  | _, .nan => .nan
  | .posInf, .posInf => .nan
  | .negInf, .negInf => .nan
  | .posInf, _ => .posInf
  | .negInf, _ => .negInf
  | .finite _ _, .posInf => .negInf
  | .finite _ _, .negInf => .posInf
  | .finite m1 e1, .finite m2 e2 =>
    .finite (m1 * 2 ^ (e1 - min e1 e2).toNat - m2 * 2 ^ (e2 - min e1 e2).toNat) (min e1 e2)

/-- Whether a comparator result is greater than zero, as the sort reads it
(`NaN` is read as `+0`). -/
def JSNumber.isPositive : JSNumber → Bool
  | .posInf => true
  | .finite m _ => decide (0 < m)
  | _ => false

/-- An integer as a Number (enough for the results of `localeCompare`). -/
def JSNumber.ofInt (i : Int) : JSNumber := .finite i 0

/-- White space and line terminators, the characters `trim` and `parseFloat` strip. -/
def isStrWhiteSpaceChar (c : Char) : Bool :=
  c.toNat ∈ [9, 10, 11, 12, 13, 32, 160, 5760, 8232, 8233, 8239, 8287, 12288, 65279] ||
    (8192 ≤ c.toNat && c.toNat ≤ 8202)

/-- `String.prototype.trim`. -/
def jsTrim (s : String) : String :=
  String.mk (((s.data.dropWhile isStrWhiteSpaceChar).reverse.dropWhile
    isStrWhiteSpaceChar).reverse)

/-- Number of binary digits of `n`, by halving at most `fuel` times. -/
def bitLengthAux : Nat → Nat → Nat
  | 0, _ => 0
  | fuel + 1, n => if n = 0 then 0 else bitLengthAux fuel (n / 2) + 1

/-- Number of binary digits of `n`. -/
def bitLength (n : Nat) : Nat := bitLengthAux n n

/-- The double nearest to `num / den` (ties to even), with the sign `negative`;
overflow gives an infinity.  Zero is not signed here. -/
def roundToDouble (negative : Bool) (num den : Nat) : JSNumber :=
  if num = 0 then .finite 0 0
  else
    let scaled (e : Int) : Nat × Nat :=
      if 0 ≤ e then (num, den * 2 ^ e.toNat) else (num * 2 ^ (-e).toNat, den)
    let high : Int := (bitLength num : Int) - (bitLength den : Int) - 52
    let e0 : Int := if 2 ^ 52 ≤ (scaled high).1 / (scaled high).2 then high else high - 1
    let e1 : Int := max e0 (-1074)
    let a := (scaled e1).1
    let b := (scaled e1).2
    let m0 := a / b
    let r := a % b
    let m1 := if b < 2 * r || (2 * r == b && m0 % 2 == 1) then m0 + 1 else m0
    let m := if m1 == 2 ^ 53 then 2 ^ 52 else m1
    let e := if m1 == 2 ^ 53 then e1 + 1 else e1
    if 971 < e then (if negative then .negInf else .posInf)
    else if m = 0 then .finite 0 0
    else .finite (if negative then -(m : Int) else (m : Int)) e

/-- The global `parseFloat`: leading white space is skipped, the longest prefix
that is a decimal literal (sign, `Infinity`, digits, fraction, exponent) is
read, and its value is rounded to a double; `NaN` when there is no such prefix. -/
def parseFloat (inputString : String) : JSNumber :=
  let trimmed := inputString.data.dropWhile isStrWhiteSpaceChar
  let negative : Bool := match trimmed with
    | '-' :: _ => true
    | _ => false
  let unsigned : List Char := match trimmed with
    | '-' :: r => r
    | '+' :: r => r
    | r => r
  if "Infinity".data.isPrefixOf unsigned then (if negative then .negInf else .posInf)
  else
    let intDigits := unsigned.takeWhile Char.isDigit
    let r1 := unsigned.dropWhile Char.isDigit
    let fracDigits : List Char := match r1 with
      | '.' :: r => r.takeWhile Char.isDigit
      | _ => []
    let r2 : List Char := match r1 with
      | '.' :: r => r.dropWhile Char.isDigit
      | _ => r1
    if intDigits.isEmpty && fracDigits.isEmpty then .nan
    else
      let exponent : Int := match r2 with
        | c :: r =>
          if c == 'e' || c == 'E' then
            let expNegative : Bool := match r with
              | '-' :: _ => true
              | _ => false
            let r3 : List Char := match r with
              | '-' :: r4 => r4
              | '+' :: r4 => r4
              | _ => r
            let expDigits := r3.takeWhile Char.isDigit
            if expDigits.isEmpty then 0
            else if expNegative then -(decimalValue expDigits : Int)
            else (decimalValue expDigits : Int)
          else 0
        | [] => 0
      let mantissa := decimalValue (intDigits ++ fracDigits)
      let scale : Int := exponent - (fracDigits.length : Int)
      if 0 ≤ scale then roundToDouble negative (mantissa * 10 ^ scale.toNat) 1
      else roundToDouble negative mantissa (10 ^ (-scale).toNat)

/-- Ordering of two character sequences by code points: -1, 0 or 1. -/
def compareChars : List Char → List Char → Int
  | [], [] => 0
  | [], _ :: _ => -1
  | _ :: _, [] => 1
  | a :: as, b :: bs =>
    if a.toNat < b.toNat then -1
    else if b.toNat < a.toNat then 1
    else compareChars as bs

/-- A stand-in for `String.prototype.localeCompare` where a concrete collation
is needed: ordering by code points. -/
def codePointCompare (a b : String) : Int := compareChars a.data b.data

/-! ## `sortTable` (lines 98-119) -/

/-- What lies below a table body, as far as `sortTable` can see it: text, and
`tr` elements with their cells.  A cell is the list of what it contains; a table
nested in a cell shows as its rows among the nodes of that cell (the wrapping
`table` and `tbody` elements are not kept, nor other elements around text).
`key` is the identity of the `tr` node. -/
inductive TableNode where
  | text (data : String)
  | row (key : Nat) (cells : List (List TableNode))
deriving Repr

/-- The identity of a row (0 for text, which has none). -/
def TableNode.key : TableNode → Nat
  | .text _ => 0
  | .row key _ => key

/-- The collection `cells` of a row (none for text). -/
def TableNode.cells : TableNode → List (List TableNode)
  | .text _ => []
  | .row _ cells => cells

/-- Whether a node is the `tr` element with the given identity. -/
def TableNode.isRow (key : Nat) : TableNode → Bool
  | .text _ => false
  | .row k _ => k == key

mutual
/-- The property `textContent` of a node: the text below it, in document order. -/
def TableNode.textContent : TableNode → String
  | .text data => data
  | .row _ cells => cellsText cells
/-- The text of the cells of a row, one after the other. -/
def cellsText : List (List TableNode) → String
  | [] => ""
  | c :: cs => nodesText c ++ cellsText cs
/-- The `textContent` of an element with the given child nodes. -/
def nodesText : List TableNode → String
  | [] => ""
  | n :: ns => n.textContent ++ nodesText ns
end

mutual
/-- The `tr` elements at or below a node, in document order. -/
def TableNode.rows : TableNode → List TableNode
  | .text _ => []
  | .row key cells => .row key cells :: rowsInCells cells
/-- The `tr` elements below the cells of a row. -/
def rowsInCells : List (List TableNode) → List TableNode
  | [] => []
  | c :: cs => rowsIn c ++ rowsInCells cs
/-- The result of `querySelectorAll('tr')` on an element with the given child
nodes: every `tr` below it, at any depth, in document order. -/
def rowsIn : List TableNode → List TableNode
  | [] => []
  | n :: ns => n.rows ++ rowsIn ns
end

mutual
/-- A node once the row with identity `key` is taken out from below it. -/
def TableNode.without (key : Nat) : TableNode → TableNode
  | .text data => .text data
  | .row k cells => .row k (cellsWithout key cells)
/-- The cells of a row once the row with identity `key` is taken out of them. -/
def cellsWithout (key : Nat) : List (List TableNode) → List (List TableNode)
  | [] => []
  | c :: cs => removeRow key c :: cellsWithout key cs
/-- The child nodes of an element once the row with identity `key` is taken
out, wherever below the element it is. -/
def removeRow (key : Nat) : List TableNode → List TableNode
  | [] => []
  | n :: ns => if n.isRow key then removeRow key ns else n.without key :: removeRow key ns
end

/-- The row with identity `key` as it is now, looked up among rows in document order. -/
def findRow (key : Nat) (nodes : List TableNode) : Option TableNode :=
  (rowsIn nodes).find? (fun r => r.isRow key)

/-- The error of reading `textContent` on `undefined`, when `cells[column]` is absent. -/
inductive TypeError where
  | undefinedCell
deriving DecidableEq, Repr

/-- The trimmed text of a row at a column (the empty string when the cell is absent). -/
def trimmedCell (row : TableNode) (column : Nat) : String :=
  jsTrim (nodesText (row.cells.getD column []))

/-- Lines 106-115 of the comparator, once both texts are read. -/
def compareTexts (parse : String → JSNumber) (collate : String → String → Int)
    (ascending : Bool) (aText bText : String) : JSNumber :=
  let aNum := parse aText
  let bNum := parse bText
  if !aNum.isNaN && !bNum.isNaN then
    (if ascending then aNum.sub bNum else bNum.sub aNum)
  else
    JSNumber.ofInt (if ascending then collate aText bText else collate bText aText)

/-- The comparator passed to `rows.sort` (lines 102-116).  `parse` is the
global `parseFloat` and `collate` is `localeCompare` of the host. -/
def compareRows (parse : String → JSNumber) (collate : String → String → Int)
    (column : Nat) (ascending : Bool) (a b : TableNode) : Except TypeError JSNumber :=
  match a.cells[column]? with
  | none => .error .undefinedCell
  | some aCell =>
    match b.cells[column]? with
    | none => .error .undefinedCell
    | some bCell =>
      .ok (compareTexts parse collate ascending (jsTrim (nodesText aCell))
        (jsTrim (nodesText bCell)))

/-- Insert `x` into the sorted part: before the first element that the
comparator puts after it.  A comparator that throws ends the sort. -/
def insertSorted {α ε : Type} (comparefn : α → α → Except ε JSNumber) (x : α) :
    List α → Except ε (List α)
  | [] => .ok [x]
  | y :: ys =>
    match comparefn y x with
    | .error e => .error e
    | .ok v =>
      if v.isPositive then .ok (x :: y :: ys)
      else
        match insertSorted comparefn x ys with
        | .error e => .error e
        | .ok r => .ok (y :: r)

/-- The elements still to place are inserted one by one into the sorted part. -/
def arraySortFrom {α ε : Type} (comparefn : α → α → Except ε JSNumber) :
    List α → List α → Except ε (List α)
  | sorted, [] => .ok sorted
  | sorted, x :: xs =>
    match insertSorted comparefn x sorted with
    | .error e => .error e
    | .ok s => arraySortFrom comparefn s xs

/-- `Array.prototype.sort(comparefn)`, as a stable insertion sort.  The host may
sort otherwise; for a comparator that is consistent on the array the result is
the same. -/
def arraySort {α ε : Type} (comparefn : α → α → Except ε JSNumber) (l : List α) :
    Except ε (List α) :=
  arraySortFrom comparefn [] l

/-- `tbody.appendChild(row)`: the node is taken out of the place where it is
now, with all that is below it now, and becomes the last child of the body. -/
def appendChild (tbody : List TableNode) (row : TableNode) : List TableNode :=
  match findRow row.key tbody with
  | some current => removeRow row.key tbody ++ [current]
  | none => tbody ++ [row]

/-- `sortTable(table, column, ascending)` on the child nodes of the table body:
the child nodes afterwards, or the error thrown by the comparator (the body is
then untouched).  The array `rows` holds every `tr` below the body (line 100),
the comparator reads them while the tree is still unchanged, and every one of
them is then appended to the body (line 118). -/
def sortTable (parse : String → JSNumber) (collate : String → String → Int)
    (tbody : List TableNode) (column : Nat) (ascending : Bool) :
    Except TypeError (List TableNode) :=
  match arraySort (compareRows parse collate column ascending) (rowsIn tbody) with
  | .error e => .error e
  | .ok rows => .ok (rows.foldl appendChild tbody)

/-- A body without nesting: every child node is a row, and no row has a row below it. -/
def FlatBody (tbody : List TableNode) : Prop :=
  ∀ n ∈ tbody, ∃ key cells, n = .row key cells ∧ rowsInCells cells = []

/-! ## The content of an element and `innerHTML` -/

/-- A node below an element: text, a comment, or an element with its
attributes and child nodes. -/
inductive DomNode where
  | text (data : String)
  | comment (data : String)
  | element (tagName : String) (attributes : List (String × String))
      (children : List DomNode)
deriving Repr

/-- The two algorithms of the host behind `innerHTML`: the getter serialises
the child nodes, the setter parses markup into new child nodes. -/
structure HtmlHost where
  serialize : List DomNode → String
  parse : String → List DomNode

/-- An interactive element: its child nodes, the number of times they were
replaced wholesale by an assignment to `innerHTML` (nodes of different
generations are different nodes), the property `disabled`, and everything else
it has (`rest`). -/
structure Element (ρ : Type) where
  children : List DomNode
  generation : Nat
  disabled : Bool
  rest : ρ

/-- Reading `element.innerHTML`. -/
def Element.innerHTML {ρ : Type} (host : HtmlHost) (element : Element ρ) : String :=
  host.serialize element.children

/-- The assignment `element.innerHTML = markup`: the child nodes are replaced
by the nodes the parser makes. -/
def Element.setInnerHTML {ρ : Type} (host : HtmlHost) (markup : String)
    (element : Element ρ) : Element ρ :=
  { element with children := host.parse markup, generation := element.generation + 1 }

/-! ## `showLoading` (lines 26-35) -/

/-- The default value of the parameter `text`. -/
def defaultLoadingText : String := "加载中..."

/-- The closure `hideLoading` (lines 31-34).  It captures `originalText` and the
element reference; `element` is the state of that element when the closure runs. -/
def hideLoading {ρ : Type} (host : HtmlHost) (originalText : String)
    (element : Element ρ) : Element ρ :=
  let e1 := element.setInnerHTML host originalText
  { e1 with disabled := false }

/-- `showLoading(element, text)`: the element after the call and the returned
closure.  `text = none` is an omitted (or `undefined`) argument. -/
def showLoading {ρ : Type} (host : HtmlHost) (element : Element ρ) (text : Option String) :
    Element ρ × (Element ρ → Element ρ) :=
  let originalText := element.innerHTML host
  let label := text.getD defaultLoadingText
  let e1 := element.setInnerHTML host ("<span class=\"loading\"></span> " ++ label)
  ({ e1 with disabled := true }, hideLoading host originalText)

/-! ## A host: serialising and parsing HTML fragments

The two algorithms of the HTML standard, for the markup met here: text,
comments, and elements with attributes, in an element that is parsed like
`div` or `button`.  The serialiser follows the standard on these nodes.  The
parser covers character references `&amp;` `&lt;` `&gt;` `&quot;` `&nbsp;`,
comments, start tags with attributes, void elements, the line feed dropped
after `<pre>`, and end tags that close the nearest open element of their name;
the special rules of the standard for paragraphs, lists, tables, formatting
elements and raw text elements are not covered. -/

/-- Elements that the serialiser writes without children and end tag. -/
def serializedAsVoid : List String :=
  [ "area", "base", "basefont", "bgsound", "br", "col", "embed", "frame", "hr", "img",
    "input", "keygen", "link", "meta", "param", "source", "track", "wbr" ]

/-- Elements whose text children are serialised as they are. -/
def serializedRaw : List String :=
  [ "style", "script", "xmp", "iframe", "noembed", "noframes", "plaintext", "noscript" ]

/-- The double quote. -/
def doubleQuote : Char := Char.ofNat 34

/-- The single quote. -/
def singleQuote : Char := Char.ofNat 39

/-- The no-break space. -/
def noBreakSpace : Char := Char.ofNat 160

/-- Escaping a string for serialisation; the double quote only in an attribute value. -/
def escapeString (attributeMode : Bool) (s : String) : String :=
  String.join (s.data.map (fun c =>
    if c == '&' then "&amp;"
    else if c == noBreakSpace then "&nbsp;"
    else if c == '<' then "&lt;"
    else if c == '>' then "&gt;"
    else if attributeMode && c == doubleQuote then "&quot;"
    else String.singleton c))

/-- The attributes of a start tag, serialised. -/
def serializeAttributes : List (String × String) → String
  | [] => ""
  | (name, value) :: rest =>
    " " ++ name ++ "=" ++ String.singleton doubleQuote ++ escapeString true value ++
      String.singleton doubleQuote ++ serializeAttributes rest

mutual
/-- Serialisation of one node; `raw` says whether its parent is a raw text element. -/
def DomNode.serialize (raw : Bool) : DomNode → String
  | .text data => if raw then data else escapeString false data
  | .comment data => "<!--" ++ data ++ "-->"
  | .element tagName attributes children =>
    "<" ++ tagName ++ serializeAttributes attributes ++ ">" ++
      (if serializedAsVoid.contains tagName then ""
       else serializeNodes (serializedRaw.contains tagName) children ++ "</" ++ tagName ++ ">")
/-- Serialisation of child nodes, one after the other. -/
def serializeNodes (raw : Bool) : List DomNode → String
  | [] => ""
  | n :: ns => n.serialize raw ++ serializeNodes raw ns
end

/-- The tokens the parser works on. -/
inductive HtmlToken where
  | character (c : Char)
  | comment (data : String)
  | startTag (tagName : String) (attributes : List (String × String))
  | endTag (tagName : String)
deriving Repr

/-- White space inside tags. -/
def isHtmlSpace (c : Char) : Bool :=
  c == '\t' || c == '\n' || c == Char.ofNat 12 || c == ' '

/-- Where a tag name or an attribute name ends. -/
def endsName (c : Char) : Bool :=
  isHtmlSpace c || c == '/' || c == '>' || c == '='

/-- A name in lower case. -/
def lowerName (cs : List Char) : String := String.mk (cs.map Char.toLower)

/-- The character reference at the start of the input that follows `&`: the
character it stands for and the input after it. -/
def characterReference : List Char → Option (Char × List Char)
  | 'a' :: 'm' :: 'p' :: ';' :: rest => some ('&', rest)
  | 'l' :: 't' :: ';' :: rest => some ('<', rest)
  | 'g' :: 't' :: ';' :: rest => some ('>', rest)
  | 'q' :: 'u' :: 'o' :: 't' :: ';' :: rest => some (doubleQuote, rest)
  | 'n' :: 'b' :: 's' :: 'p' :: ';' :: rest => some (noBreakSpace, rest)
  | _ => none

/-- An attribute value with its character references replaced. -/
def decodeReferences : Nat → List Char → List Char
  | 0, _ => []
  | _, [] => []
  | fuel + 1, c :: rest =>
    if c == '&' then
      match characterReference rest with
      | some (ch, after) => ch :: decodeReferences fuel after
      | none => c :: decodeReferences fuel rest
    else c :: decodeReferences fuel rest

/-- The attributes of a tag, read up to its closing `>`: the attributes and
the input after the tag (`none` when the input ends inside the tag). -/
def parseAttributes : Nat → List Char → List (String × String) × Option (List Char)
  | 0, _ => ([], none)
  | fuel + 1, cs =>
    match cs.dropWhile (fun c => isHtmlSpace c || c == '/') with
    | [] => ([], none)
    | c :: rest =>
      if c == '>' then ([], some rest)
      else
        let name := lowerName (c :: rest.takeWhile (fun c => !endsName c))
        let afterName := (rest.dropWhile (fun c => !endsName c)).dropWhile isHtmlSpace
        match afterName with
        | [] => ([(name, "")], none)
        | d :: more =>
          if d == '=' then
            let valueStart := more.dropWhile isHtmlSpace
            match valueStart with
            | [] => ([(name, "")], none)
            | q :: quoted =>
              if q == doubleQuote || q == singleQuote then
                let value := quoted.takeWhile (fun c => c != q)
                let next := parseAttributes fuel ((quoted.dropWhile (fun c => c != q)).drop 1)
                ((name, String.mk (decodeReferences value.length value)) :: next.1, next.2)
              else
                let value := valueStart.takeWhile (fun c => !(isHtmlSpace c || c == '>'))
                let next := parseAttributes fuel
                  (valueStart.dropWhile (fun c => !(isHtmlSpace c || c == '>')))
                ((name, String.mk (decodeReferences value.length value)) :: next.1, next.2)
          else
            let next := parseAttributes fuel afterName
            ((name, "") :: next.1, next.2)

/-- Of several attributes with one name, the first is kept. -/
def dropDuplicates : List (String × String) → List (String × String) → List (String × String)
  | _, [] => []
  | seen, a :: rest =>
    if seen.any (fun b => b.1 == a.1) then dropDuplicates seen rest
    else a :: dropDuplicates (a :: seen) rest

/-- The data of a comment and the input after its closing `-->`. -/
def splitComment : List Char → List Char × List Char
  | [] => ([], [])
  | '-' :: '-' :: '>' :: rest => ([], rest)
  | c :: rest => (c :: (splitComment rest).1, (splitComment rest).2)

/-- The tokenizer, on at most `fuel` characters. -/
def tokenize : Nat → List Char → List HtmlToken
  | 0, _ => []
  | _, [] => []
  | fuel + 1, c :: rest =>
    if c == '<' then
      match rest with
      | [] => [.character '<']
      | d :: rest2 =>
        if d.isAlpha then
          let name := lowerName ((d :: rest2).takeWhile (fun c => !endsName c))
          let attrs := parseAttributes fuel ((d :: rest2).dropWhile (fun c => !endsName c))
          match attrs.2 with
          | some after => .startTag name (dropDuplicates [] attrs.1) :: tokenize fuel after
          | none => []
        else if d == '/' then
          match rest2 with
          | [] => [.character '<', .character '/']
          | e :: rest3 =>
            if e.isAlpha then
              let name := lowerName ((e :: rest3).takeWhile (fun c => !endsName c))
              let attrs := parseAttributes fuel ((e :: rest3).dropWhile (fun c => !endsName c))
              match attrs.2 with
              | some after => .endTag name :: tokenize fuel after
              | none => []
            else if e == '>' then tokenize fuel rest3
            else
              .comment (String.mk ((e :: rest3).takeWhile (fun c => c != '>'))) ::
                tokenize fuel (((e :: rest3).dropWhile (fun c => c != '>')).drop 1)
        else if d == '!' then
          match rest2 with
          | '-' :: '-' :: body =>
            .comment (String.mk (splitComment body).1) :: tokenize fuel (splitComment body).2
          | _ =>
            .comment (String.mk (rest2.takeWhile (fun c => c != '>'))) ::
              tokenize fuel ((rest2.dropWhile (fun c => c != '>')).drop 1)
        else if d == '?' then
          .comment (String.mk ((d :: rest2).takeWhile (fun c => c != '>'))) ::
            tokenize fuel (((d :: rest2).dropWhile (fun c => c != '>')).drop 1)
        else .character '<' :: tokenize fuel rest
    else if c == '&' then
      match characterReference rest with
      | some (ch, after) => .character ch :: tokenize fuel after
      | none => .character '&' :: tokenize fuel rest
    else .character c :: tokenize fuel rest

/-- An element that is open while the tree is built, with its children so far. -/
structure OpenElement where
  tagName : String
  attributes : List (String × String)
  children : List DomNode

/-- A character appended to child nodes: it joins a text node that is last. -/
def appendCharacter (c : Char) (children : List DomNode) : List DomNode :=
  match children.getLast? with
  | some (.text data) => children.dropLast ++ [.text (data.push c)]
  | _ => children ++ [.text (String.singleton c)]

/-- A change to the children of the current node: the open element on top of
the stack or, when none is open, the element that is being filled. -/
def onCurrent (f : List DomNode → List DomNode) :
    List OpenElement → List DomNode → List OpenElement × List DomNode
  | [], root => ([], f root)
  | top :: below, root => ({ top with children := f top.children } :: below, root)

/-- Open elements are closed from the top down to the nearest one with the
given name; `pending` is what the elements closed so far leave to their parent. -/
def closeThrough (tagName : String) (pending : List DomNode) :
    List OpenElement → List DomNode → List OpenElement × List DomNode
  | [], root => ([], root ++ pending)
  | top :: below, root =>
    if top.tagName == tagName then
      onCurrent (fun cs => cs ++
        [.element top.tagName top.attributes (top.children ++ pending)]) below root
    else
      closeThrough tagName [.element top.tagName top.attributes (top.children ++ pending)]
        below root

/-- At the end of the input every open element is closed. -/
def closeAll (pending : List DomNode) : List OpenElement → List DomNode → List DomNode
  | [], root => root ++ pending
  | top :: below, root =>
    closeAll [.element top.tagName top.attributes (top.children ++ pending)] below root

/-- Elements that the parser inserts without opening them. -/
def parsedAsVoid : List String :=
  [ "area", "base", "basefont", "bgsound", "br", "embed", "hr", "img", "input", "keygen",
    "link", "meta", "param", "source", "track", "wbr" ]

/-- Tree construction from the tokens.  `skipLineFeed` is set right after the
start tag of `pre`, `listing` or `textarea`: a line feed that comes next is dropped. -/
def buildTree : List HtmlToken → Bool → List OpenElement → List DomNode → List DomNode
  | [], _, stack, root => closeAll [] stack root
  | .character c :: tokens, skipLineFeed, stack, root =>
    if skipLineFeed && c == '\n' then buildTree tokens false stack root
    else
      buildTree tokens false (onCurrent (appendCharacter c) stack root).1
        (onCurrent (appendCharacter c) stack root).2
  | .comment data :: tokens, _, stack, root =>
    buildTree tokens false (onCurrent (fun cs => cs ++ [.comment data]) stack root).1
      (onCurrent (fun cs => cs ++ [.comment data]) stack root).2
  | .startTag tagName attributes :: tokens, _, stack, root =>
    if parsedAsVoid.contains tagName then
      buildTree tokens false
        (onCurrent (fun cs => cs ++ [.element tagName attributes []]) stack root).1
        (onCurrent (fun cs => cs ++ [.element tagName attributes []]) stack root).2
    else
      buildTree tokens (tagName == "pre" || tagName == "listing" || tagName == "textarea")
        ({ tagName := tagName, attributes := attributes, children := [] } :: stack) root
  | .endTag tagName :: tokens, _, stack, root =>
    if stack.any (fun e => e.tagName == tagName) then
      buildTree tokens false (closeThrough tagName [] stack root).1
        (closeThrough tagName [] stack root).2
    else buildTree tokens false stack root

/-- Carriage returns of the input become line feeds. -/
def normalizeNewlines : List Char → List Char
  | [] => []
  | '\r' :: '\n' :: rest => '\n' :: normalizeNewlines rest
  | '\r' :: rest => '\n' :: normalizeNewlines rest
  | c :: rest => c :: normalizeNewlines rest

/-- The fragment parser behind the setter of `innerHTML`. -/
def parseFragment (markup : String) : List DomNode :=
  buildTree (tokenize markup.length (normalizeNewlines markup.data)) false [] []

/-- The fragment serialiser behind the getter of `innerHTML`. -/
def serializeFragment (children : List DomNode) : String :=
  serializeNodes false children

/-- The host made of the two. -/
def browserHost : HtmlHost :=
  { serialize := serializeFragment, parse := parseFragment }

/-! # Theorems -/

/-! ## `formatBuildStatus` -/

theorem statusMapGet_of_not_defined (s : String) (h : s ∉ definedCodes) :
    statusMapGet s = if s ∈ objectPrototypeKeys then .inherited s else .undefined := by
  simp [definedCodes, statusMap] at h
  obtain ⟨h1, h2, h3, h4, h5, h6, h7, h8⟩ := h
  have e1 : (s == "UPLOAD_OK") = false := by simpa using h1
  have e2 : (s == "SUCCESS") = false := by simpa using h2
  have e3 : (s == "OK") = false := by simpa using h3
  have e4 : (s == "UPLOAD_GIVEUP") = false := by simpa using h4
  have e5 : (s == "APPLY_FAILED") = false := by simpa using h5
  have e6 : (s == "APPLYING") = false := by simpa using h6
  have e7 : (s == "UPLOADING") = false := by simpa using h7
  have e8 : (s == "UNKNOWN") = false := by simpa using h8
  simp only [statusMapGet, statusMap, List.lookup, e1, e2, e3, e4, e5, e6, e7, e8]

/-- A status that is neither a key of `statusMap` nor a property name inherited
from `Object.prototype` is rendered verbatim with the `unknown` style. -/
theorem formatBuildStatus_fallback (s : String) (h : s ∉ definedCodes)
    (hp : s ∉ objectPrototypeKeys) :
    formatBuildStatus s = "<span class=\"build-status unknown\">" ++ s ++ "</span>" := by
  simp [formatBuildStatus, statusStyle, statusLabel, statusInfoOf,
    statusMapGet_of_not_defined s h, hp, JSValue.truthy, JSValue.getCss, JSValue.getText,
    interpolate]

/-- A property name inherited from `Object.prototype` is rendered as `undefined`
with the style `undefined`: the inherited value is truthy, so the fallback
object of line 57 is not used, and it has neither `css` nor `text`. -/
theorem formatBuildStatus_inherited (s : String) (hp : s ∈ objectPrototypeKeys) :
    formatBuildStatus s = "<span class=\"build-status undefined\">undefined</span>" := by
  simp only [objectPrototypeKeys, List.mem_cons, List.mem_singleton, List.not_mem_nil,
    or_false] at hp
  rcases hp with h | h | h | h | h | h | h | h | h | h | h | h <;> subst h <;> decide

theorem statusStyle_of_not_defined (s : String) (h : s ∉ definedCodes) :
    statusStyle s = "unknown" ∨ statusStyle s = "undefined" := by
  by_cases hp : s ∈ objectPrototypeKeys
  · right
    simp [statusStyle, statusInfoOf, statusMapGet_of_not_defined s h, hp,
      JSValue.truthy, JSValue.getCss, interpolate]
  · left
    simp [statusStyle, statusInfoOf, statusMapGet_of_not_defined s h, hp,
      JSValue.truthy, JSValue.getCss, interpolate]

/-- C1, at the input `"constructor"`: it is none of the eight defined codes,
yet `formatBuildStatus` does not return it verbatim with the `unknown` style;
it returns the text `undefined` with the style `undefined`. -/
theorem formatBuildStatus_constructor :
    "constructor" ∉ definedCodes ∧
    formatBuildStatus "constructor" =
      "<span class=\"build-status undefined\">undefined</span>" ∧
    formatBuildStatus "constructor" ≠
      "<span class=\"build-status unknown\">" ++ "constructor" ++ "</span>" := by
  decide

/-- C2: each of the eight defined codes is rendered with exactly its mapped
label and style, and a status has the style `success`, `failure` or `pending`
only if it is, letter for letter, one of the codes mapped to that style. -/
theorem formatBuildStatus_defined :
    (formatBuildStatus "UPLOAD_OK" = "<span class=\"build-status success\">成功</span>" ∧
     formatBuildStatus "SUCCESS" = "<span class=\"build-status success\">成功</span>" ∧
     formatBuildStatus "OK" = "<span class=\"build-status success\">成功</span>" ∧
     formatBuildStatus "UPLOAD_GIVEUP" = "<span class=\"build-status failure\">失败</span>" ∧
     formatBuildStatus "APPLY_FAILED" = "<span class=\"build-status failure\">失败</span>" ∧
     formatBuildStatus "APPLYING" = "<span class=\"build-status pending\">进行中</span>" ∧
     formatBuildStatus "UPLOADING" = "<span class=\"build-status pending\">上传中</span>" ∧
     formatBuildStatus "UNKNOWN" = "<span class=\"build-status unknown\">未知</span>") ∧
    ∀ s : String,
      formatBuildStatus s =
        "<span class=\"build-status " ++ statusStyle s ++ "\">" ++ statusLabel s ++ "</span>" ∧
      (statusStyle s = "success" ↔ s = "UPLOAD_OK" ∨ s = "SUCCESS" ∨ s = "OK") ∧
      (statusStyle s = "failure" ↔ s = "UPLOAD_GIVEUP" ∨ s = "APPLY_FAILED") ∧
      (statusStyle s = "pending" ↔ s = "APPLYING" ∨ s = "UPLOADING") := by
  refine ⟨by decide, fun s => ⟨rfl, ?_⟩⟩
  by_cases h : s ∈ definedCodes
  · simp [definedCodes, statusMap] at h
    rcases h with h | h | h | h | h | h | h | h <;> subst h <;> decide
  · have hs := statusStyle_of_not_defined s h
    simp [definedCodes, statusMap] at h
    obtain ⟨h1, h2, h3, h4, h5, h6, h7, h8⟩ := h
    rcases hs with e | e <;> simp [e, h1, h2, h3, h4, h5, h6, h7]

/-! ## `apiRequest` -/

/-- C7: how `apiRequest` settles, case by case.  A rejected `fetch` is logged
and re-raised unchanged.  A response with `ok = false` gives the error
`HTTP error! status: ` followed by the status, and `json()` is not called.
A failing `json()` is logged and re-raised unchanged.  Otherwise the result is
the parsed body.  So the call fails exactly when one of the three happens. -/
theorem apiRequest_settles {ε β : Type}
    (fetch : String → RequestOptions OptionValue → Except ε (Response ε β))
    (url : String) (options : RequestOptions OptionValue) :
    (match fetch url (spread defaultOptions options) with
     | .error e =>
       apiRequest fetch url options =
         (.error (.raised e),
          [.fetchCalled url (spread defaultOptions options),
           .consoleError "API request failed:" (.raised e)])
     | .ok response =>
       if response.ok = false then
         apiRequest fetch url options =
           (.error (.error ("HTTP error! status: " ++ toString response.status)),
            [.fetchCalled url (spread defaultOptions options),
             .consoleError "API request failed:"
               (.error ("HTTP error! status: " ++ toString response.status))])
       else
         match response.json with
         | .error e =>
           apiRequest fetch url options =
             (.error (.raised e),
              [.fetchCalled url (spread defaultOptions options), .jsonCalled,
               .consoleError "API request failed:" (.raised e)])
         | .ok body =>
           apiRequest fetch url options =
             (.ok body, [.fetchCalled url (spread defaultOptions options), .jsonCalled])) ∧
    ((∃ err, (apiRequest fetch url options).1 = .error err) ↔
      ((∃ e, fetch url (spread defaultOptions options) = .error e) ∨
       (∃ response, fetch url (spread defaultOptions options) = .ok response ∧
          (response.ok = false ∨ ∃ e, response.json = .error e)))) := by
  cases hf : fetch url (spread defaultOptions options) with
  | error e => simp [apiRequest, hf, onRejected]
  | ok response =>
    cases hok : response.ok with
    | false => simp [apiRequest, hf, onResponse, onRejected, hok]
    | true =>
      cases hj : response.json with
      | error e => simp [apiRequest, hf, onResponse, onRejected, hok, hj]
      | ok body => simp [apiRequest, hf, onResponse, onRejected, hok, hj]

/-! ## `showLoading` -/

/-- C10, as the code has it: `showLoading` assigns to `innerHTML` the spinner
markup followed by the label, so the content becomes what the parser makes of
that string, and sets `disabled` to `true`; the returned action assigns to
`innerHTML` the string that `innerHTML` gave before `showLoading`, on whatever
state the element is in when it runs, so the content becomes the parse of the
serialisation of the prior content, in new nodes, and sets `disabled` to
`false`; nothing else of the element changes.  After `showLoading` and the
action, the content is the tree it was exactly when that tree survives
serialising and parsing, and `disabled` is what it was exactly when the element
was not disabled before. -/
theorem showLoading_restore_markup {ρ : Type} (host : HtmlHost) (element : Element ρ)
    (text : Option String) :
    (showLoading host element text).1 =
      { children := host.parse ("<span class=\"loading\"></span> " ++ text.getD "加载中..."),
        generation := element.generation + 1,
        disabled := true, rest := element.rest } ∧
    (∀ current : Element ρ, (showLoading host element text).2 current =
      { children := host.parse (host.serialize element.children),
        generation := current.generation + 1,
        disabled := false, rest := current.rest }) ∧
    (((showLoading host element text).2 (showLoading host element text).1).children =
        element.children ↔
      host.parse (host.serialize element.children) = element.children) ∧
    (((showLoading host element text).2 (showLoading host element text).1).disabled =
        element.disabled ↔
      element.disabled = false) ∧
    ((showLoading host element text).2 (showLoading host element text).1).rest =
      element.rest ∧
    ((showLoading host element text).2 (showLoading host element text).1).generation =
      element.generation + 2 := by
  refine ⟨rfl, fun _ => rfl, Iff.rfl, ?_, rfl, rfl⟩
  simp only [showLoading, hideLoading, Element.setInnerHTML]
  exact eq_comm

/-- A button with an icon and a label: its content survives serialising and
parsing, so the action brings back the same tree. -/
theorem showLoading_restore_markup_witness :
    ((showLoading browserHost
        ({ children := [.element "i" [("class", "icon")] [], .text " Save & exit"],
           generation := 0, disabled := false, rest := () } : Element Unit) none).2
      (showLoading browserHost
        ({ children := [.element "i" [("class", "icon")] [], .text " Save & exit"],
           generation := 0, disabled := false, rest := () } : Element Unit) none).1).children =
      [.element "i" [("class", "icon")] [], .text " Save & exit"] :=
  (showLoading_restore_markup browserHost
    ({ children := [.element "i" [("class", "icon")] [], .text " Save & exit"],
       generation := 0, disabled := false, rest := () } : Element Unit) none).2.2.1.2 rfl

/-- C10 as stated fails at an element whose content is a `pre` element with
the text of a line feed and `foo`: the getter gives `<pre>`, a line feed,
`foo`, `</pre>`; the parser drops a line feed that follows `<pre>`, so after
`showLoading` and the returned action the text of the `pre` element is `foo`,
which is not the content the element had. -/
theorem showLoading_restore_loses_line_feed :
    (showLoading browserHost
        ({ children := [.element "pre" [] [.text "\nfoo"]],
           generation := 0, disabled := false, rest := () } : Element Unit) none).1.children =
      [.element "span" [("class", "loading")] [], .text " 加载中..."] ∧
    ((showLoading browserHost
        ({ children := [.element "pre" [] [.text "\nfoo"]],
           generation := 0, disabled := false, rest := () } : Element Unit) none).2
      (showLoading browserHost
        ({ children := [.element "pre" [] [.text "\nfoo"]],
           generation := 0, disabled := false, rest := () } : Element Unit) none).1).children =
      [.element "pre" [] [.text "foo"]] ∧
    ([.element "pre" [] [.text "foo"]] : List DomNode) ≠ [.element "pre" [] [.text "\nfoo"]] := by
  refine ⟨rfl, rfl, ?_⟩
  intro h
  simp at h

/-! ## `debounce` -/

theorem callAt_debounce {α : Type} (wait : Nat) (call : Nat × α) :
    Armed wait call.1 call.2 (callAt wait (debounce 0) call) := by
  refine ⟨1, ?_, ?_, ?_, ?_⟩ <;>
    simp [callAt, executedFunction, advanceTo, runTimers, debounce, clearTimeout, setTimeout]

theorem callAt_armed {α : Type} (wait t : Nat) (args : α) (l : Loop α (Debounced α))
    (h : Armed wait t args l) (call : Nat × α) (h1 : t ≤ call.1) (h2 : call.1 < t + wait) :
    Armed wait call.1 call.2 (callAt wait l call) := by
  obtain ⟨i, ht, hto, hnow, hex⟩ := h
  have hnd : ¬ (t + wait ≤ call.1) := by omega
  refine ⟨l.nextTimerId, ?_, ?_, ?_, ?_⟩ <;>
    simp [callAt, executedFunction, advanceTo, runTimers, clearTimeout, setTimeout, ht, hto,
      popEarliest, hnd, hnow, hex, h1]

theorem foldl_callAt_armed {α : Type} (wait : Nat) (rest : List (Nat × α)) :
    ∀ (first : Nat × α) (l : Loop α (Debounced α)), Armed wait first.1 first.2 l →
      List.Chain (fun a b : Nat × α => a.1 ≤ b.1 ∧ b.1 < a.1 + wait) first rest →
      Armed wait ((first :: rest).getLast (List.cons_ne_nil _ _)).1
        ((first :: rest).getLast (List.cons_ne_nil _ _)).2 (rest.foldl (callAt wait) l) := by
  induction rest with
  | nil => intro first l h _; simpa using h
  | cons c cs ih =>
    intro first l h hc
    rw [List.chain_cons] at hc
    have h1 := callAt_armed wait first.1 first.2 l h c hc.1.1 hc.1.2
    have := ih c (callAt wait l c) h1 hc.2
    simpa [List.getLast_cons] using this

theorem advanceTo_armed {α : Type} (wait t : Nat) (args : α) (l : Loop α (Debounced α))
    (h : Armed wait t args l) (upTo : Nat) :
    (advanceTo later upTo l).state.executions =
      if t + wait ≤ upTo then [(t + wait, args)] else [] := by
  obtain ⟨i, ht, hto, hnow, hex⟩ := h
  by_cases hd : t + wait ≤ upTo
  · simp [advanceTo, runTimers, ht, popEarliest, hd, later, clearTimeout, hto, hex, hnow]
  · simp [advanceTo, runTimers, ht, popEarliest, hd, hex]

/-- C3: calls of the debounced function that follow each other by less than
`wait` make `func` run exactly once, at the time of the last call plus `wait`
and with the arguments of the last call; until then it has not run at all. -/
theorem debounce_trailing_once {α : Type} (wait : Nat) (calls : List (Nat × α))
    (hne : calls ≠ [])
    (hgap : calls.Chain' (fun a b => a.1 ≤ b.1 ∧ b.1 < a.1 + wait)) (upTo : Nat) :
    debounceTrace wait calls upTo =
      if (calls.getLast hne).1 + wait ≤ upTo
      then [((calls.getLast hne).1 + wait, (calls.getLast hne).2)] else [] := by
  cases calls with
  | nil => exact absurd rfl hne
  | cons c cs =>
    have h := foldl_callAt_armed wait cs c (callAt wait (debounce 0) c)
      (callAt_debounce wait c) hgap
    exact advanceTo_armed wait _ _ _ h upTo

/-- Calls at 0, 10 and 20 with a wait of 30: nothing has run at 49, and from 50
on there is the one execution at 50 with the third arguments. -/
theorem debounce_trailing_once_witness :
    debounceTrace 30 [(0, "a"), (10, "b"), (20, "c")] 49 = [] ∧
    debounceTrace 30 [(0, "a"), (10, "b"), (20, "c")] 50 = [(50, "c")] ∧
    debounceTrace 30 [(0, "a"), (10, "b"), (20, "c")] 1000 = [(50, "c")] :=
  ⟨debounce_trailing_once 30 [(0, "a"), (10, "b"), (20, "c")] (by decide) (by simp) 49,
   debounce_trailing_once 30 [(0, "a"), (10, "b"), (20, "c")] (by decide) (by simp) 50,
   debounce_trailing_once 30 [(0, "a"), (10, "b"), (20, "c")] (by decide) (by simp) 1000⟩

/-! ## `showAlert` -/

/-- C5, two calls at one clock reading: whatever the page, the messages and the
severities, two calls of `showAlert` with no clock tick between them append two
nodes with the same id (distinct nodes, since their identities differ). -/
theorem showAlert_same_millisecond (l : PageLoop) (m1 m2 : String) (t1 t2 : Option String) :
    (showAlert m2 t2 (showAlert m1 t1 l)).state.alertContainer =
      l.state.alertContainer ++
        [ { key := l.state.nextKey, id := "alert-" ++ toString l.now,
            type := t1.getD "info", message := m1 },
          { key := l.state.nextKey + 1, id := "alert-" ++ toString l.now,
            type := t2.getD "info", message := m2 } ] := by
  simp [showAlert, setTimeout, alertId]

/-! ### Ids are injective in the clock reading -/

theorem digitChar_toNat (m : Nat) (h : m < 10) : (Nat.digitChar m).toNat - 48 = m := by
  interval_cases m <;> rfl

/-- Reading a decimal numeral back. -/
theorem decimalValue_toDigitsCore (fuel : Nat) :
    ∀ (n : Nat) (ds : List Char), n < fuel →
      decimalValue (Nat.toDigitsCore 10 fuel n ds) = ds.foldl decimalStep n := by
  induction fuel with
  | zero => intro n ds h; omega
  | succ fuel ih =>
    intro n ds h
    have hd := digitChar_toNat (n % 10) (Nat.mod_lt _ (by decide))
    by_cases h0 : n / 10 = 0
    · simp only [Nat.toDigitsCore, h0, if_true, decimalValue, List.foldl_cons, decimalStep, hd]
      congr 1
      omega
    · simp only [Nat.toDigitsCore, h0, if_false]
      rw [ih (n / 10) _ (by omega)]
      simp only [List.foldl_cons, decimalStep, hd]
      congr 1
      omega

theorem decimalValue_repr (n : Nat) : decimalValue (toString n).data = n := by
  show decimalValue (Nat.toDigits 10 n) = n
  unfold Nat.toDigits
  rw [decimalValue_toDigitsCore (n + 1) n [] (by omega)]
  rfl

theorem alertId_injective (a b : Nat) (h : alertId a = alertId b) : a = b := by
  have h1 : (alertId a).data = (alertId b).data := by rw [h]
  simp only [alertId, String.data_append, List.append_cancel_left_eq] at h1
  have := congrArg decimalValue h1
  simpa [decimalValue_repr] using this

/-! ### The timer queue -/

theorem popEarliest_eq_none {κ : Type} (ts : List (PendingTimer κ)) :
    popEarliest ts = none ↔ ts = [] := by
  cases ts with
  | nil => simp [popEarliest]
  | cons t ts =>
    simp only [popEarliest]
    cases h : popEarliest ts with
    | none => simp
    | some p => 
      obtain ⟨u, rest⟩ := p
      by_cases hlt : u.due < t.due <;> simp [hlt]

theorem popEarliest_perm {κ : Type} (ts : List (PendingTimer κ)) :
    ∀ u rest, popEarliest ts = some (u, rest) → ts.Perm (u :: rest) := by
  induction ts with
  | nil => intro u rest h; simp [popEarliest] at h
  | cons t ts ih =>
    intro u rest h
    simp only [popEarliest] at h
    cases h1 : popEarliest ts with
    | none =>
      simp [h1] at h
      obtain ⟨rfl, rfl⟩ := h
      exact List.Perm.refl _
    | some p =>
      obtain ⟨v, rest1⟩ := p
      simp only [h1] at h
      by_cases hlt : v.due < t.due
      · simp [hlt] at h
        obtain ⟨rfl, rfl⟩ := h
        exact ((ih v rest1 h1).cons t).trans (List.Perm.swap v t rest1)
      · simp [hlt] at h
        obtain ⟨rfl, rfl⟩ := h
        exact List.Perm.refl _

theorem popEarliest_due_le {κ : Type} (ts : List (PendingTimer κ)) :
    ∀ u rest, popEarliest ts = some (u, rest) → ∀ t ∈ ts, u.due ≤ t.due := by
  induction ts with
  | nil => intro u rest h; simp [popEarliest] at h
  | cons t ts ih =>
    intro u rest h
    simp only [popEarliest] at h
    cases h1 : popEarliest ts with
    | none =>
      simp [h1] at h
      obtain ⟨rfl, rfl⟩ := h
      have := (popEarliest_eq_none ts).1 h1
      subst this
      simp
    | some p =>
      obtain ⟨v, rest1⟩ := p
      simp only [h1] at h
      have hv := ih v rest1 h1
      by_cases hlt : v.due < t.due
      · simp [hlt] at h
        obtain ⟨rfl, rfl⟩ := h
        intro x hx
        rcases List.mem_cons.1 hx with rfl | hx
        · omega
        · exact hv x hx
      · simp [hlt] at h
        obtain ⟨rfl, rfl⟩ := h
        intro x hx
        rcases List.mem_cons.1 hx with rfl | hx
        · exact le_refl _
        · have := hv x hx
          omega

/-! ### Every notification has a pending timer -/

theorem autoClose_timers (id : String) (l : PageLoop) : (autoClose id l).timers = l.timers := by
  unfold autoClose
  split <;> rfl

theorem erase_found_eq_eraseP (id : String) (c : List AlertNode) :
    (match c.find? (fun n => n.id == id) with
     | some alert => c.erase alert
     | none => c) = c.eraseP (fun n => n.id == id) := by
  induction c with
  | nil => simp
  | cons n c ih =>
    by_cases hn : n.id = id
    · simp [List.find?_cons, hn]
    · have hb : (n.id == id) = false := by simpa using hn
      simp only [List.find?_cons, hb, List.eraseP_cons, cond_false]
      cases h : c.find? (fun n => n.id == id) with
      | none =>
        rw [h] at ih
        simp only at ih ⊢
        rw [← ih]
      | some alert =>
        rw [h] at ih
        simp only at ih ⊢
        have hne : (n == alert) = false := by
          have := List.find?_some h
          simp only [beq_iff_eq] at this
          simp only [beq_eq_false_iff_ne, ne_eq]
          intro e
          exact hn (e ▸ this)
        rw [List.erase_cons_tail (by simp [hne]), ih]

theorem autoClose_container (id : String) (l : PageLoop) :
    (autoClose id l).state.alertContainer =
      l.state.alertContainer.eraseP (fun n => n.id == id) := by
  rw [← erase_found_eq_eraseP]
  unfold autoClose
  split <;> simp_all

theorem countP_eraseP_other (a id : String) (h : id ≠ a) (c : List AlertNode) :
    (c.eraseP (fun n => n.id == a)).countP (fun n => n.id == id) =
      c.countP (fun n => n.id == id) := by
  induction c with
  | nil => simp
  | cons n c ih =>
    by_cases hn : n.id = a
    · simp [List.eraseP_cons, hn, List.countP_cons, Ne.symm h]
    · have hb : (n.id == a) = false := by simpa using hn
      simp [List.eraseP_cons, hb, List.countP_cons, ih]

theorem countP_eraseP_same (a : String) (c : List AlertNode) :
    (c.eraseP (fun n => n.id == a)).countP (fun n => n.id == a) =
      c.countP (fun n => n.id == a) - 1 := by
  induction c with
  | nil => simp
  | cons n c ih =>
    by_cases hn : n.id = a
    · simp [List.eraseP_cons, hn, List.countP_cons]
    · have hb : (n.id == a) = false := by simpa using hn
      simp [List.eraseP_cons, hb, List.countP_cons, ih]

theorem covered_initialPage (start : Nat) : Covered (initialPage start) := by
  constructor
  · intro tm h; simp [initialPage] at h
  · intro id; simp [initialPage]

theorem covered_showAlert (message : String) (type : Option String) (l : PageLoop)
    (h : Covered l) : Covered (showAlert message type l) := by
  obtain ⟨h1, h2⟩ := h
  constructor
  · intro tm htm
    simp only [showAlert, setTimeout, List.mem_append, List.mem_singleton] at htm
    rcases htm with htm | rfl
    · exact h1 tm htm
    · exact ⟨l.now, rfl, rfl⟩
  · intro id
    have := h2 id
    simp only [showAlert, setTimeout, List.countP_append, List.countP_cons, List.countP_nil]
    omega

theorem covered_dismiss (key : Nat) (l : PageLoop) (h : Covered l) :
    Covered (dismiss key l) := by
  obtain ⟨h1, h2⟩ := h
  refine ⟨h1, fun id => le_trans ?_ (h2 id)⟩
  exact List.Sublist.countP_le _ (List.filter_sublist _)

theorem covered_fire (l : PageLoop) (h : Covered l) (u : PendingTimer String)
    (rest : List (PendingTimer String)) (hp : popEarliest l.timers = some (u, rest)) :
    Covered (autoClose u.callback { l with now := max l.now u.due, timers := rest }) := by
  obtain ⟨h1, h2⟩ := h
  have hperm := popEarliest_perm l.timers u rest hp
  constructor
  · intro tm htm
    rw [autoClose_timers] at htm
    exact h1 tm (hperm.mem_iff.2 (List.mem_cons_of_mem _ htm))
  · intro id
    rw [autoClose_timers, autoClose_container]
    have hc := h2 id
    rw [hperm.countP_eq, List.countP_cons] at hc
    by_cases hid : id = u.callback
    · subst hid
      rw [countP_eraseP_same]
      simp at hc ⊢
      omega
    · rw [countP_eraseP_other _ _ hid]
      have : (u.callback == id) = false := by
        simpa using fun e => hid e.symm
      simpa [this] using hc

theorem covered_runTimers (upTo fuel : Nat) :
    ∀ l : PageLoop, Covered l → Covered (runTimers autoClose upTo fuel l) := by
  induction fuel with
  | zero => intro l h; exact h
  | succ fuel ih =>
    intro l h
    simp only [runTimers]
    cases hp : popEarliest l.timers with
    | none => exact h
    | some p =>
      obtain ⟨u, rest⟩ := p
      simp only
      by_cases hd : u.due ≤ upTo
      · simp only [hd, if_true]
        exact ih _ (covered_fire l h u rest hp)
      · simp only [hd, if_false]
        exact h

theorem runTimers_all_due_later (upTo fuel : Nat) :
    ∀ l : PageLoop, l.timers.length ≤ fuel →
      ∀ tm ∈ (runTimers autoClose upTo fuel l).timers, upTo < tm.due := by
  induction fuel with
  | zero =>
    intro l hl tm htm
    have : l.timers = [] := List.length_eq_zero.1 (by omega)
    simp [runTimers, this] at htm
  | succ fuel ih =>
    intro l hl
    simp only [runTimers]
    cases hp : popEarliest l.timers with
    | none =>
      intro tm htm
      have := (popEarliest_eq_none l.timers).1 hp
      simp [this] at htm
    | some p =>
      obtain ⟨u, rest⟩ := p
      simp only
      have hperm := popEarliest_perm l.timers u rest hp
      by_cases hd : u.due ≤ upTo
      · simp only [hd, if_true]
        apply ih
        rw [autoClose_timers]
        have := hperm.length_eq
        simp at this ⊢
        omega
      · simp only [hd, if_false]
        intro tm htm
        have := popEarliest_due_le l.timers u rest hp tm htm
        omega

theorem covered_advanceTo (upTo : Nat) (l : PageLoop) (h : Covered l) :
    Covered (advanceTo autoClose upTo l) :=
  covered_runTimers upTo l.timers.length l h

theorem covered_runPage (start : Nat) (events : List PageEvent) :
    Covered (runPage start events) := by
  unfold runPage
  generalize hl : initialPage start = l
  have h : Covered l := hl ▸ covered_initialPage start
  clear hl
  induction events generalizing l with
  | nil => exact h
  | cons e es ih =>
    apply ih
    cases e with
    | alert m t => exact covered_showAlert m t l h
    | dismiss k => exact covered_dismiss k l h
    | tick T => exact covered_advanceTo T l h

/-- Auto-removal: after any sequence of `showAlert` calls, dismissals and clock
ticks, once the clock has reached `upTo` no notification shown at a time `t`
with `t + 5000 ≤ upTo` is left in the container. -/
theorem showAlert_auto_removed (start : Nat) (events : List PageEvent) (upTo t : Nat)
    (n : AlertNode)
    (hn : n ∈ (advanceTo autoClose upTo (runPage start events)).state.alertContainer)
    (hid : n.id = alertId t) : upTo < t + 5000 := by
  have hcov := covered_advanceTo upTo _ (covered_runPage start events)
  have hlate := runTimers_all_due_later upTo (runPage start events).timers.length
    (runPage start events) (le_refl _)
  obtain ⟨h1, h2⟩ := hcov
  have hpos : 0 < (advanceTo autoClose upTo (runPage start events)).state.alertContainer.countP
      (fun m => m.id == alertId t) :=
    List.countP_pos_iff.2 ⟨n, hn, by simp [hid]⟩
  have hpos2 := lt_of_lt_of_le hpos (h2 (alertId t))
  obtain ⟨tm, htm, hcb⟩ := List.countP_pos_iff.1 hpos2
  obtain ⟨t1, ht1, hdue⟩ := h1 tm htm
  have ht : t1 = t := alertId_injective _ _ (by rw [← ht1]; simpa using hcb)
  have := hlate tm htm
  omega

/-- C6, at two notifications shown in one millisecond of which the first is
dismissed by hand: the timer that runs first at 5000 is the one of the
dismissed notification, and its callback is not a no-op, it removes the other
notification. -/
theorem autoClose_after_dismiss_removes_sibling :
    (runPage 0 [.alert "A" none, .alert "B" none, .dismiss 0]).state.alertContainer =
      [ { key := 1, id := "alert-0", type := "info", message := "B" } ] ∧
    popEarliest (runPage 0 [.alert "A" none, .alert "B" none, .dismiss 0]).timers =
      some ({ id := 1, due := 5000, callback := "alert-0" },
            [{ id := 2, due := 5000, callback := "alert-0" }]) ∧
    (autoClose "alert-0"
      (runPage 0 [.alert "A" none, .alert "B" none, .dismiss 0])).state.alertContainer = [] := by
  decide

/-! ## `copyToClipboard` -/

/-- C8, at a rejected `writeText` and at a copy command that reports failure:
on the first branch a rejection of `writeText` settles the returned promise as
rejected with the same reason and leaves the page untouched, so the caller gets
the rejection and no notification is shown; on the second branch a copy command
returning `false` is followed by the success notification. -/
theorem copyToClipboard_failure_paths {ε : Type} (e : ε) (command : CopyCommand ε)
    (text : String) (l : PageLoop) :
    copyToClipboard true true (fun _ => .error e) command text l = (.promise (.error e), l) ∧
    (copyToClipboard false false (fun _ => .error e) (.returns false) text
        l).2.state.alertContainer =
      l.state.alertContainer ++
        [ { key := l.state.nextKey + 1, id := "alert-" ++ toString l.now,
            type := "success", message := "已复制到剪贴板" } ] := by
  refine ⟨?_, ?_⟩
  · simp [copyToClipboard]
  · simp [copyToClipboard, showAlert, setTimeout, alertId]

/-- C9: on the second branch, for every text and every end of the copy command,
the temporary text field is not in the body afterwards, the body has the same
children as before, and exactly one notification was appended; it is the
success notification when the command returned and the failure notification
when it threw.  The page is well formed: the identity of the next node is not
yet in use. -/
theorem copyToClipboard_fallback_frame {ε : Type} (clipboard secure : Bool)
    (writeText : String → Except ε Unit) (command : CopyCommand ε) (text : String)
    (l : PageLoop) (hpath : (clipboard && secure) = false)
    (hfresh : ∀ n ∈ l.state.body, n.key < l.state.nextKey) :
    (∀ n ∈ (copyToClipboard clipboard secure writeText command text l).2.state.body,
      n.key ≠ l.state.nextKey) ∧
    (copyToClipboard clipboard secure writeText command text l).2.state.body = l.state.body ∧
    (copyToClipboard clipboard secure writeText command text l).2.state.alertContainer =
      l.state.alertContainer ++
        [ match command with
          | .returns _ =>
            { key := l.state.nextKey + 1, id := alertId l.now,
              type := "success", message := "已复制到剪贴板" }
          | .throws _ =>
            { key := l.state.nextKey + 1, id := alertId l.now,
              type := "error", message := "复制失败" } ] := by
  have hbody : (copyToClipboard clipboard secure writeText command text l).2.state.body =
      l.state.body := by
    cases command <;>
      simp [copyToClipboard, hpath, showAlert, setTimeout, List.filter_append] <;>
      intro n hn <;> have := hfresh n hn <;> omega
  refine ⟨?_, hbody, ?_⟩
  · intro n hn
    rw [hbody] at hn
    have := hfresh n hn
    omega
  · cases command <;> simp [copyToClipboard, hpath, showAlert, setTimeout]

/-- A page with one child in the body, the copy command throwing. -/
theorem copyToClipboard_fallback_frame_witness :
    (copyToClipboard false true (fun _ => Except.ok ()) (CopyCommand.throws "denied") "x"
      { now := 7, nextTimerId := 1, timers := [],
        state := { nextKey := 3, alertContainer := [],
                   body := [{ key := 1, tagName := "div", value := "" }] } }).2.state.body =
      [{ key := 1, tagName := "div", value := "" }] :=
  (copyToClipboard_fallback_frame false true (fun _ => Except.ok ())
    (CopyCommand.throws "denied") "x"
    { now := 7, nextTimerId := 1, timers := [],
      state := { nextKey := 3, alertContainer := [],
                 body := [{ key := 1, tagName := "div", value := "" }] } }
    rfl (by decide)).2.1

/-! ## `sortTable` -/

theorem compareChars_total (a : List Char) :
    ∀ b, 0 < compareChars a b → compareChars b a ≤ 0 := by
  induction a with
  | nil => intro b; cases b <;> simp [compareChars]
  | cons x xs ih =>
    intro b
    cases b with
    | nil => simp [compareChars]
    | cons y ys =>
      simp only [compareChars]
      intro h
      split_ifs at h ⊢ <;> first | omega | exact ih ys h

theorem compareChars_trans (a : List Char) :
    ∀ b c, compareChars a b ≤ 0 → compareChars b c ≤ 0 → compareChars a c ≤ 0 := by
  induction a with
  | nil => intro b c _ _; cases c <;> simp [compareChars]
  | cons x xs ih =>
    intro b c
    cases b with
    | nil => simp [compareChars]
    | cons y ys =>
      cases c with
      | nil => simp [compareChars]
      | cons z zs =>
        simp only [compareChars]
        intro h1 h2
        split_ifs at h1 h2 ⊢ <;> first | omega | exact ih ys zs h1 h2

theorem insertSorted_perm {α ε : Type} (comparefn : α → α → Except ε JSNumber) (x : α) :
    ∀ (l r : List α), insertSorted comparefn x l = .ok r → r.Perm (x :: l) := by
  intro l
  induction l with
  | nil =>
    intro r h
    simp only [insertSorted, Except.ok.injEq] at h
    subst h
    exact List.Perm.refl _
  | cons y ys ih =>
    intro r h
    simp only [insertSorted] at h
    cases hc : comparefn y x with
    | error e => simp [hc] at h
    | ok v =>
      simp only [hc] at h
      by_cases hv : v.isPositive = true
      · simp only [hv, if_true, Except.ok.injEq] at h
        subst h
        exact List.Perm.refl _
      · simp only [hv] at h
        cases hi : insertSorted comparefn x ys with
        | error e => simp [hi] at h
        | ok r1 =>
          simp only [hi, Bool.false_eq_true, if_false, Except.ok.injEq] at h
          subst h
          exact ((ih r1 hi).cons y).trans (List.Perm.swap x y ys)

theorem insertSorted_ok {α ε : Type} (comparefn : α → α → Except ε JSNumber) (x : α) :
    ∀ l : List α, (∀ y ∈ l, ∃ v, comparefn y x = .ok v) →
      ∃ r, insertSorted comparefn x l = .ok r := by
  intro l
  induction l with
  | nil => intro _; exact ⟨[x], rfl⟩
  | cons y ys ih =>
    intro h
    obtain ⟨v, hv⟩ := h y (List.mem_cons_self _ _)
    obtain ⟨r1, hr1⟩ := ih (fun z hz => h z (List.mem_cons_of_mem _ hz))
    simp only [insertSorted, hv, hr1]
    by_cases hp : v.isPositive = true
    · exact ⟨x :: y :: ys, by simp [hp]⟩
    · exact ⟨y :: r1, by simp [hp]⟩

theorem insertSorted_pairwise {α ε : Type} (comparefn : α → α → Except ε JSNumber)
    (le : α → α → Prop) (htrans : ∀ a b c, le a b → le b c → le a c) (x : α) :
    ∀ (l r : List α),
      (∀ y ∈ l, ∀ v, comparefn y x = .ok v →
        (v.isPositive = true → le x y) ∧ (v.isPositive = false → le y x)) →
      l.Pairwise le → insertSorted comparefn x l = .ok r → r.Pairwise le := by
  intro l
  induction l with
  | nil =>
    intro r _ _ h
    simp only [insertSorted, Except.ok.injEq] at h
    subst h
    simp
  | cons y ys ih =>
    intro r hcmp hs h
    simp only [insertSorted] at h
    rw [List.pairwise_cons] at hs
    cases hc : comparefn y x with
    | error e => simp [hc] at h
    | ok v =>
      have hy := hcmp y (List.mem_cons_self _ _) v hc
      simp only [hc] at h
      by_cases hv : v.isPositive = true
      · simp only [hv, if_true, Except.ok.injEq] at h
        subst h
        refine List.pairwise_cons.2 ⟨?_, List.pairwise_cons.2 hs⟩
        intro z hz
        rcases List.mem_cons.1 hz with rfl | hz
        · exact hy.1 hv
        · exact htrans _ _ _ (hy.1 hv) (hs.1 z hz)
      · simp only [hv] at h
        cases hi : insertSorted comparefn x ys with
        | error e => simp [hi] at h
        | ok r1 =>
          simp only [hi, Bool.false_eq_true, if_false, Except.ok.injEq] at h
          subst h
          have hr1 := ih r1 (fun z hz => hcmp z (List.mem_cons_of_mem _ hz)) hs.2 hi
          refine List.pairwise_cons.2 ⟨?_, hr1⟩
          intro z hz
          have hz1 := (insertSorted_perm comparefn x ys r1 hi).mem_iff.1 hz
          rcases List.mem_cons.1 hz1 with rfl | hz1
          · exact hy.2 (by simpa using hv)
          · exact hs.1 z hz1

theorem arraySortFrom_perm {α ε : Type} (comparefn : α → α → Except ε JSNumber) :
    ∀ (rest sorted r : List α), arraySortFrom comparefn sorted rest = .ok r →
      r.Perm (sorted ++ rest) := by
  intro rest
  induction rest with
  | nil =>
    intro sorted r h
    simp only [arraySortFrom, Except.ok.injEq] at h
    subst h
    simp
  | cons x xs ih =>
    intro sorted r h
    simp only [arraySortFrom] at h
    cases hi : insertSorted comparefn x sorted with
    | error e => simp [hi] at h
    | ok s =>
      simp only [hi] at h
      have h1 := ih s r h
      have h2 := insertSorted_perm comparefn x sorted s hi
      refine h1.trans ((h2.append_right xs).trans ?_)
      simp only [List.cons_append]
      exact List.perm_middle.symm

theorem arraySortFrom_ok {α ε : Type} (comparefn : α → α → Except ε JSNumber) :
    ∀ (rest sorted : List α),
      (∀ a ∈ sorted ++ rest, ∀ b ∈ sorted ++ rest, ∃ v, comparefn a b = .ok v) →
      ∃ r, arraySortFrom comparefn sorted rest = .ok r := by
  intro rest
  induction rest with
  | nil => intro sorted _; exact ⟨sorted, rfl⟩
  | cons x xs ih =>
    intro sorted h
    obtain ⟨s, hs⟩ := insertSorted_ok comparefn x sorted
      (fun y hy => h y (by simp [hy]) x (by simp))
    simp only [arraySortFrom, hs]
    apply ih
    have hp := insertSorted_perm comparefn x sorted s hs
    have hmem : ∀ a, a ∈ s ++ xs → a ∈ sorted ++ x :: xs := by
      intro a ha
      rcases List.mem_append.1 ha with ha | ha
      · rcases List.mem_cons.1 (hp.mem_iff.1 ha) with rfl | ha
        · simp
        · simp [ha]
      · simp [ha]
    intro a ha b hb
    exact h a (hmem a ha) b (hmem b hb)

theorem arraySortFrom_pairwise {α ε : Type} (comparefn : α → α → Except ε JSNumber)
    (le : α → α → Prop) (htrans : ∀ a b c, le a b → le b c → le a c) :
    ∀ (rest sorted r : List α),
      (∀ a ∈ sorted ++ rest, ∀ b ∈ sorted ++ rest, ∀ v, comparefn a b = .ok v →
        (v.isPositive = true → le b a) ∧ (v.isPositive = false → le a b)) →
      sorted.Pairwise le → arraySortFrom comparefn sorted rest = .ok r → r.Pairwise le := by
  intro rest
  induction rest with
  | nil =>
    intro sorted r _ hs h
    simp only [arraySortFrom, Except.ok.injEq] at h
    subst h
    exact hs
  | cons x xs ih =>
    intro sorted r hcmp hs h
    simp only [arraySortFrom] at h
    cases hi : insertSorted comparefn x sorted with
    | error e => simp [hi] at h
    | ok s =>
      simp only [hi] at h
      have hp := insertSorted_perm comparefn x sorted s hi
      have hmem : ∀ a, a ∈ s ++ xs → a ∈ sorted ++ x :: xs := by
        intro a ha
        rcases List.mem_append.1 ha with ha | ha
        · rcases List.mem_cons.1 (hp.mem_iff.1 ha) with rfl | ha
          · simp
          · simp [ha]
        · simp [ha]
      refine ih s r (fun a ha b hb => hcmp a (hmem a ha) b (hmem b hb)) ?_ h
      exact insertSorted_pairwise comparefn le htrans x sorted s
        (fun y hy v hv => hcmp y (by simp [hy]) x (by simp) v hv) hs hi

theorem value_finite_eq (m e k : Int) (hk : k ≤ e) :
    (JSNumber.finite m e).value = ((m * 2 ^ (e - k).toNat : Int) : ℚ) * (2 : ℚ) ^ k := by
  have he : e = k + ((e - k).toNat : Int) := by
    rw [Int.toNat_of_nonneg (by omega)]; ring
  simp only [JSNumber.value]
  conv_lhs => rw [he]
  rw [zpow_add₀ (by norm_num : (2 : ℚ) ≠ 0), zpow_natCast]
  push_cast
  ring

theorem sub_isPositive_iff (m1 e1 m2 e2 : Int) :
    ((JSNumber.finite m1 e1).sub (JSNumber.finite m2 e2)).isPositive = true ↔
      (JSNumber.finite m2 e2).value < (JSNumber.finite m1 e1).value := by
  rw [value_finite_eq m1 e1 (min e1 e2) (min_le_left _ _),
    value_finite_eq m2 e2 (min e1 e2) (min_le_right _ _)]
  have hpos : (0 : ℚ) < (2 : ℚ) ^ (min e1 e2) := zpow_pos (by norm_num) _
  rw [mul_lt_mul_right hpos]
  simp only [JSNumber.sub, JSNumber.isPositive, decide_eq_true_eq, Int.cast_lt]
  omega


/-! ### A body without nesting -/

theorem rows_of_flat (key : Nat) (cells : List (List TableNode))
    (h : rowsInCells cells = []) : (TableNode.row key cells).rows = [.row key cells] := by
  simp [TableNode.rows, h]

theorem rowsIn_of_flat (tbody : List TableNode) (h : FlatBody tbody) : rowsIn tbody = tbody := by
  induction tbody with
  | nil => simp [rowsIn]
  | cons n ns ih =>
    obtain ⟨key, cells, rfl, hc⟩ := h _ (List.mem_cons_self _ _)
    have := ih (fun m hm => h m (List.mem_cons_of_mem _ hm))
    simp [rowsIn, rows_of_flat key cells hc, this]

theorem removeRow_of_no_rows (key : Nat) (nodes : List TableNode) (h : rowsIn nodes = []) :
    removeRow key nodes = nodes := by
  induction nodes with
  | nil => simp [removeRow]
  | cons n ns ih =>
    cases n with
    | text data =>
      have h2 : rowsIn ns = [] := by simpa [rowsIn, TableNode.rows] using h
      simp [removeRow, TableNode.isRow, TableNode.without, ih h2]
    | row k cells => simp [rowsIn, TableNode.rows] at h

theorem cellsWithout_of_no_rows (key : Nat) (cells : List (List TableNode))
    (h : rowsInCells cells = []) : cellsWithout key cells = cells := by
  induction cells with
  | nil => simp [cellsWithout]
  | cons c cs ih =>
    simp only [rowsInCells, List.append_eq_nil] at h
    simp [cellsWithout, removeRow_of_no_rows key c h.1, ih h.2]

theorem removeRow_of_flat (key : Nat) (tbody : List TableNode) (h : FlatBody tbody) :
    removeRow key tbody = tbody.filter (fun n => n.key != key) := by
  induction tbody with
  | nil => simp [removeRow]
  | cons n ns ih =>
    obtain ⟨k, cells, rfl, hc⟩ := h _ (List.mem_cons_self _ _)
    have := ih (fun m hm => h m (List.mem_cons_of_mem _ hm))
    by_cases hk : k = key
    · simp [removeRow, TableNode.isRow, TableNode.key, hk, this]
    · simp [removeRow, TableNode.isRow, TableNode.key, hk, this, TableNode.without,
        cellsWithout_of_no_rows key cells hc]

theorem isRow_eq_of_flat (tbody : List TableNode) (h : FlatBody tbody) (key : Nat) :
    ∀ n ∈ tbody, n.isRow key = (n.key == key) := by
  intro n hn
  obtain ⟨k, cells, rfl, _⟩ := h n hn
  rfl

theorem find_of_nodup (tbody : List TableNode) (hnd : (tbody.map TableNode.key).Nodup)
    (r : TableNode) (hr : r ∈ tbody) :
    tbody.find? (fun n => n.key == r.key) = some r := by
  induction tbody with
  | nil => simp at hr
  | cons n ns ih =>
    rw [List.map_cons, List.nodup_cons] at hnd
    rcases List.mem_cons.1 hr with rfl | hr
    · simp
    · have hne : ¬ n.key = r.key := by
        intro e
        exact hnd.1 (e ▸ List.mem_map.2 ⟨r, hr, rfl⟩)
      simp [List.find?_cons, hne, ih hnd.2 hr]

theorem find_congr_of_mem {α : Type} (l : List α) (p q : α → Bool)
    (h : ∀ n ∈ l, p n = q n) : l.find? p = l.find? q := by
  induction l with
  | nil => rfl
  | cons n ns ih =>
    simp only [List.find?_cons, h n (List.mem_cons_self _ _),
      ih (fun m hm => h m (List.mem_cons_of_mem _ hm))]

theorem appendChild_of_flat (tbody : List TableNode) (h : FlatBody tbody)
    (hnd : (tbody.map TableNode.key).Nodup) (r : TableNode) (hr : r ∈ tbody) :
    appendChild tbody r = tbody.filter (fun n => n.key != r.key) ++ [r] := by
  have hfind : findRow r.key tbody = some r := by
    unfold findRow
    rw [rowsIn_of_flat tbody h, ← find_of_nodup tbody hnd r hr]
    exact find_congr_of_mem tbody _ _ (isRow_eq_of_flat tbody h r.key)
  simp [appendChild, hfind, removeRow_of_flat r.key tbody h]

theorem foldl_appendChild (rows : List TableNode) :
    ∀ tbody : List TableNode, FlatBody tbody → (tbody.map TableNode.key).Nodup →
      (∀ r ∈ rows, r ∈ tbody) → (rows.map TableNode.key).Nodup →
      rows.foldl appendChild tbody =
        tbody.filter (fun n => !(rows.map TableNode.key).contains n.key) ++ rows := by
  induction rows with
  | nil => intro tbody _ _ _ _; simp
  | cons x xs ih =>
    intro tbody hflat hnd hmem hrows
    rw [List.map_cons, List.nodup_cons] at hrows
    have hx : x ∈ tbody := hmem x (List.mem_cons_self _ _)
    rw [List.foldl_cons, appendChild_of_flat tbody hflat hnd x hx]
    have hflat2 : FlatBody (tbody.filter (fun n => n.key != x.key) ++ [x]) := by
      intro n hn
      rcases List.mem_append.1 hn with hn | hn
      · exact hflat n (List.mem_filter.1 hn).1
      · rw [List.mem_singleton] at hn
        exact hn ▸ hflat x hx
    have hnd2 : ((tbody.filter (fun n => n.key != x.key) ++ [x]).map TableNode.key).Nodup := by
      rw [List.map_append, List.nodup_append]
      refine ⟨(hnd.sublist ((List.filter_sublist _).map _)), by simp, ?_⟩
      intro k hk1 hk2
      simp only [List.map_cons, List.map_nil, List.mem_singleton] at hk2
      obtain ⟨n, hn, rfl⟩ := List.mem_map.1 hk1
      have := (List.mem_filter.1 hn).2
      simp [hk2] at this
    have hmem2 : ∀ r ∈ xs, r ∈ tbody.filter (fun n => n.key != x.key) ++ [x] := by
      intro r hr
      apply List.mem_append_left
      rw [List.mem_filter]
      refine ⟨hmem r (List.mem_cons_of_mem _ hr), ?_⟩
      have : r.key ≠ x.key := fun e => hrows.1 (e ▸ List.mem_map.2 ⟨r, hr, rfl⟩)
      simpa using this
    rw [ih _ hflat2 hnd2 hmem2 hrows.2]
    have hxc : (List.map TableNode.key xs).contains x.key = false := by
      simpa using hrows.1
    simp only [List.filter_append, List.filter_filter, List.filter_cons,
      List.filter_nil, hxc, Bool.not_false, if_true, List.append_assoc, List.singleton_append]
    congr 1
    apply List.filter_congr
    intro r _
    simp only [List.map_cons, List.contains_cons]
    cases hc : (List.map TableNode.key xs).contains r.key <;> cases hk : (r.key == x.key) <;>
      simp [hc, hk, bne]
theorem compareRows_of_valid (parse : String → JSNumber) (collate : String → String → Int)
    (column : Nat) (ascending : Bool) (a b : TableNode)
    (ha : column < a.cells.length) (hb : column < b.cells.length) :
    compareRows parse collate column ascending a b =
      .ok (compareTexts parse collate ascending (trimmedCell a column) (trimmedCell b column)) := by
  simp [compareRows, trimmedCell, List.getD_eq_getElem?_getD, List.getElem?_eq_getElem, ha, hb]

/-- Without nesting the sort is right: for a body whose child nodes are rows
with no row below them, distinct nodes, and a column every row has,
`sortTable(table, column, true)` succeeds and leaves in the body a permutation
of the original rows; when every cell of the column parses as a finite number
the rows are in non-decreasing order of these numbers, and when no cell parses
as a number they are in non-decreasing order of the collation of the trimmed
texts.  `collate` is any consistent `localeCompare`. -/
theorem sortTable_ascending_flat (parse : String → JSNumber) (collate : String → String → Int)
    (htotal : ∀ a b, 0 < collate a b → collate b a ≤ 0)
    (htrans : ∀ a b c, collate a b ≤ 0 → collate b c ≤ 0 → collate a c ≤ 0)
    (tbody : List TableNode) (column : Nat) (hflat : FlatBody tbody)
    (hkeys : (tbody.map TableNode.key).Nodup)
    (hcol : ∀ r ∈ tbody, column < r.cells.length) :
    ∃ rows, sortTable parse collate tbody column true = .ok rows ∧ rows.Perm tbody ∧
      ((∀ r ∈ tbody, ∃ m e, parse (trimmedCell r column) = .finite m e) →
        rows.Pairwise (fun a b =>
          (parse (trimmedCell a column)).value ≤ (parse (trimmedCell b column)).value)) ∧
      ((∀ r ∈ tbody, parse (trimmedCell r column) = .nan) →
        rows.Pairwise (fun a b =>
          collate (trimmedCell a column) (trimmedCell b column) ≤ 0)) := by
  have hcmp : ∀ a ∈ tbody, ∀ b ∈ tbody,
      compareRows parse collate column true a b =
        .ok (compareTexts parse collate true (trimmedCell a column) (trimmedCell b column)) :=
    fun a ha b hb => compareRows_of_valid parse collate column true a b (hcol a ha) (hcol b hb)
  obtain ⟨s, hs⟩ := arraySortFrom_ok (compareRows parse collate column true) tbody []
    (fun a ha b hb => ⟨_, hcmp a (by simpa using ha) b (by simpa using hb)⟩)
  have hperm : s.Perm tbody := by
    simpa using arraySortFrom_perm (compareRows parse collate column true) tbody [] s hs
  have hnd : (s.map TableNode.key).Nodup := (hperm.map TableNode.key).nodup_iff.2 hkeys
  have hfold : s.foldl appendChild tbody = s := by
    rw [foldl_appendChild s tbody hflat hkeys (fun r hr => hperm.mem_iff.1 hr) hnd]
    have : tbody.filter (fun r => !(s.map TableNode.key).contains r.key) = [] := by
      rw [List.filter_eq_nil_iff]
      intro r hr
      have : r ∈ s := hperm.mem_iff.2 hr
      have hk : r.key ∈ s.map TableNode.key := List.mem_map.2 ⟨r, this, rfl⟩
      simpa using hk
    rw [this, List.nil_append]
  refine ⟨s, ?_, hperm, ?_, ?_⟩
  · simp only [sortTable, arraySort, rowsIn_of_flat tbody hflat, hs, hfold]
  · intro hnum
    refine arraySortFrom_pairwise (compareRows parse collate column true)
      (fun a b => (parse (trimmedCell a column)).value ≤ (parse (trimmedCell b column)).value)
      (fun a b c => le_trans) tbody [] s ?_ List.Pairwise.nil hs
    intro a ha b hb v hv
    rw [hcmp a (by simpa using ha) b (by simpa using hb), Except.ok.injEq] at hv
    obtain ⟨ma, ea, hpa⟩ := hnum a (by simpa using ha)
    obtain ⟨mb, eb, hpb⟩ := hnum b (by simpa using hb)
    have hv2 : v = (JSNumber.finite ma ea).sub (JSNumber.finite mb eb) := by
      rw [← hv]
      simp [compareTexts, hpa, hpb, JSNumber.isNaN]
    rw [hv2]
    show (_ → (parse (trimmedCell b column)).value ≤ (parse (trimmedCell a column)).value) ∧
      (_ → (parse (trimmedCell a column)).value ≤ (parse (trimmedCell b column)).value)
    rw [hpa, hpb]
    constructor
    · intro hp
      exact le_of_lt ((sub_isPositive_iff ma ea mb eb).1 hp)
    · intro hp
      have : ¬ (JSNumber.finite mb eb).value < (JSNumber.finite ma ea).value := by
        rw [← sub_isPositive_iff, hp]
        simp
      exact not_lt.1 this
  · intro htext
    refine arraySortFrom_pairwise (compareRows parse collate column true)
      (fun a b => collate (trimmedCell a column) (trimmedCell b column) ≤ 0)
      (fun a b c => htrans _ _ _) tbody [] s ?_ List.Pairwise.nil hs
    intro a ha b hb v hv
    rw [hcmp a (by simpa using ha) b (by simpa using hb), Except.ok.injEq] at hv
    have hpa := htext a (by simpa using ha)
    have hv2 : v = JSNumber.ofInt
        (collate (trimmedCell a column) (trimmedCell b column)) := by
      rw [← hv]
      simp [compareTexts, hpa, JSNumber.isNaN]
    rw [hv2]
    simp only [JSNumber.ofInt, JSNumber.isPositive, decide_eq_true_eq, decide_eq_false_iff_not]
    exact ⟨fun hp => htotal _ _ hp, fun hp => not_lt.1 hp⟩

/-- The two examples of the specification, on bodies without nesting:
`10, 2, 1` becomes `1, 2, 10` and `b, a, c` becomes `a, b, c`. -/
theorem sortTable_examples :
    sortTable parseFloat codePointCompare
        [.row 0 [[.text "10"]], .row 1 [[.text "2"]], .row 2 [[.text "1"]]] 0 true =
      .ok [.row 2 [[.text "1"]], .row 1 [[.text "2"]], .row 0 [[.text "10"]]] ∧
    sortTable parseFloat codePointCompare
        [.row 0 [[.text "b"]], .row 1 [[.text "a"]], .row 2 [[.text "c"]]] 0 true =
      .ok [.row 1 [[.text "a"]], .row 0 [[.text "b"]], .row 2 [[.text "c"]]] :=
  ⟨rfl, rfl⟩

/-- C4, at a body with a table nested in a cell: the body has the two rows 1
and 2; the first cell of row 1 holds the text `2` and a nested table whose one
row, 10, holds `1`; the first cell of row 2 holds `3`.  `querySelectorAll('tr')`
also finds row 10, so the three rows are sorted by `21`, `1` and `3` and all
three are appended to the body: afterwards the body has three rows, row 10
among them, and their texts `1`, `3`, `2` are not in order. -/
theorem sortTable_nested_table :
    rowsIn [.row 1 [[.text "2", .row 10 [[.text "1"]]]], .row 2 [[.text "3"]]] =
      [.row 1 [[.text "2", .row 10 [[.text "1"]]]], .row 10 [[.text "1"]],
       .row 2 [[.text "3"]]] ∧
    sortTable parseFloat codePointCompare
        [.row 1 [[.text "2", .row 10 [[.text "1"]]]], .row 2 [[.text "3"]]] 0 true =
      .ok [.row 10 [[.text "1"]], .row 2 [[.text "3"]], .row 1 [[.text "2"]]] ∧
    ([.row 10 [[.text "1"]], .row 2 [[.text "3"]], .row 1 [[.text "2"]]] :
        List TableNode).map (fun r => trimmedCell r 0) = ["1", "3", "2"] :=
  ⟨rfl, rfl, by decide⟩
end DevTool
